import Mathlib

/-!
Verification of the GIP (Game Input Protocol) host core of the xone driver.

The definitions below are a shallow embedding of the C sources:
  * the packet codec and framing engine (`bus/bus.c`, the newer revision),
  * the per-client authentication engine (`auth/auth.c`, `auth/crypto.c`),
  * the wireless dongle client table (`transport/dongle.c`).

Modelling conventions:
  * bytes are `Nat` values; wire buffers are `List Nat`;
  * C buffer writes are modelled by `writeAt` on a zero-initialised buffer
    (transport TX buffers are modelled as zero-filled with some slack: the
    C code writes into a larger preallocated buffer and submits a prefix);
  * machine-integer wrap-around is explicit (`% 256`, `% 2 ^ 16`);
  * calls into the transport (`get_buffer`, `submit_buffer`) and into the
    crypto API are modelled as succeeding; the observable effects (submitted
    packets, dispatched messages, installed keys) are returned as values;
  * errno returns are modelled as `Int` (`0` success, `-EINVAL` etc.).
-/

namespace Xone

/-- errno value 22 (`EINVAL`). -/
def EINVAL : Int := 22

/-- errno value 28 (`ENOSPC`). -/
def ENOSPC : Int := 28

/-- errno value 71 (`EPROTO`). -/
def EPROTO : Int := 71

/-- `GIP_OPT_ACKNOWLEDGE` = BIT(4). -/
def GIP_OPT_ACKNOWLEDGE : Nat := 16

/-- `GIP_OPT_INTERNAL` = BIT(5). -/
def GIP_OPT_INTERNAL : Nat := 32

/-- `GIP_OPT_CHUNK_START` = BIT(6). -/
def GIP_OPT_CHUNK_START : Nat := 64

/-- `GIP_OPT_CHUNK` = BIT(7). -/
def GIP_OPT_CHUNK : Nat := 128

/-- `GIP_HDR_MIN_LENGTH`. -/
def GIP_HDR_MIN_LENGTH : Nat := 3

/-- `GIP_PKT_MAX_LENGTH`: maximum payload of a simple (non-chunked) packet. -/
def GIP_PKT_MAX_LENGTH : Nat := 58

/-- `GIP_CHUNK_BUF_MAX_LENGTH`. -/
def GIP_CHUNK_BUF_MAX_LENGTH : Nat := 0xffff

/-- `GIP_CMD_AUDIO_SAMPLES`. -/
def GIP_CMD_AUDIO_SAMPLES : Nat := 0x60

/-- `struct gip_header`: the decoded GIP packet header. -/
structure GipHeader where
  command : Nat
  options : Nat
  sequence : Nat
  packet_length : Nat
  chunk_offset : Nat
deriving DecidableEq, Repr

/-- Write the bytes `xs` into `buf` starting at position `pos`; bytes past
the end of `buf` are dropped (the C code always writes within the
preallocated transport buffer, which we model with slack). -/
def writeAt : List Nat → Nat → List Nat → List Nat
  | buf, _, [] => buf
  | [], _, _ :: _ => []
  | _ :: bs, 0, x :: xs => x :: writeAt bs 0 xs
  | b :: bs, p + 1, xs => b :: writeAt bs p xs

/-- OR the value `v` into the byte of `buf` at position `pos`
(`buf[pos] |= v`). -/
def orByteAt (buf : List Nat) (pos : Nat) (v : Nat) : List Nat :=
  buf.set pos (buf.getD pos 0 ||| v)

/-- Loop body of `gip_encode_varint`: emits the bytes written for value
`val`, with at most `fuel` iterations (the C loop runs `i < sizeof(u32)`,
so `fuel = 4` at the top level).  Each byte is `buf[i] = val` (low 8 bits)
with BIT(7) ORed in while `val > GENMASK(6, 0)`. -/
def gip_encode_varint_go : Nat → Nat → List Nat
  | _, 0 => []
  | val, fuel + 1 =>
    let b := if 127 < val then (val % 256) ||| 128 else val % 256
    if val / 128 = 0 then [b] else b :: gip_encode_varint_go (val / 128) fuel

/-- The bytes `gip_encode_varint` writes for `val`. -/
def gip_encode_varint (val : Nat) : List Nat :=
  gip_encode_varint_go val 4

/-- The return value of `gip_encode_varint` (`i + 1`): equals the number of
bytes written except when the loop exhausts all four iterations with a
non-zero residue (`val ≥ 2 ^ 28`), where it returns 5 although only 4 bytes
were written. -/
def gip_encode_varint_ret_go : Nat → Nat → Nat
  | _, 0 => 1
  | val, fuel + 1 =>
    if val / 128 = 0 then 1 else 1 + gip_encode_varint_ret_go (val / 128) fuel

/-- Return value of `gip_encode_varint`. -/
def gip_encode_varint_ret (val : Nat) : Nat :=
  gip_encode_varint_ret_go val 4

/-- Loop of `gip_decode_varint`: `fuel` counts the remaining iterations of
`i < sizeof(u32)` (4 at top level), `i` is the current byte index, `acc`
the accumulated value.  Returns `(value, i + 1)` exactly as the C code. -/
def gip_decode_varint_go (data : List Nat) (len : Nat) :
    Nat → Nat → Nat → Nat × Nat
  | 0, i, acc => (acc, i + 1)
  | fuel + 1, i, acc =>
    if i < len then
      let b := data.getD i 0
      let acc2 := acc ||| ((b &&& 127) <<< (7 * i))
      if b &&& 128 = 0 then (acc2, i + 1)
      else gip_decode_varint_go data len fuel (i + 1) acc2
    else (acc, i + 1)

/-- `gip_decode_varint`: decode a varint from `data` (at most `len` bytes
available), returning the value and the count of bytes consumed. -/
def gip_decode_varint (data : List Nat) (len : Nat) : Nat × Nat :=
  gip_decode_varint_go data len 4 0 0

/-- Fuel-bounded base-128 digit count: the
`do { len++; v >>= 7; } while (v)` loop of
`gip_get_actual_header_length` on a u32 runs at most five times, so five
units of fuel make the recursion total and exact for every u32 value. -/
def gip_varint_digits_go : Nat → Nat → Nat
  | _, 0 => 0
  | v, fuel + 1 => if v < 128 then 1 else 1 + gip_varint_digits_go (v / 128) fuel

/-- Number of base-128 digits of `v` (u32), counting at least one. -/
def gip_varint_digits (v : Nat) : Nat :=
  gip_varint_digits_go v 5

/-- `gip_get_actual_header_length`: 3 fixed bytes, the packet-length varint
(at least one byte), and — when the CHUNK flag is set — the chunk-offset
varint (zero bytes when the offset is zero, mirroring the `while` loop). -/
def gip_get_actual_header_length (hdr : GipHeader) : Nat :=
  3 + gip_varint_digits hdr.packet_length +
    (if hdr.options &&& GIP_OPT_CHUNK = 0 then 0
     else if hdr.chunk_offset = 0 then 0
     else gip_varint_digits hdr.chunk_offset)

/-- `gip_get_header_length`: the actual header length rounded up to the
nearest even length. -/
def gip_get_header_length (hdr : GipHeader) : Nat :=
  let len := gip_get_actual_header_length hdr
  len + len % 2

/-- `gip_encode_header`: write the header into the buffer `buf`.  Mirrors
the C cursor arithmetic: three fixed bytes, the packet-length varint, then
— when the actual header length is odd — BIT(7) ORed into the byte at
`hdr_len - 1` followed by a zero pad byte, then the chunk-offset varint
(written whenever the CHUNK flag is set, even for offset zero). -/
def gip_encode_header (hdr : GipHeader) (buf : List Nat) : List Nat :=
  let buf1 := writeAt buf 0 [hdr.command, hdr.options, hdr.sequence]
  let buf2 := writeAt buf1 3 (gip_encode_varint hdr.packet_length)
  let hl1 := 3 + gip_encode_varint_ret hdr.packet_length
  let padded : List Nat × Nat :=
    if gip_get_actual_header_length hdr % 2 = 1 then
      (writeAt (orByteAt buf2 (hl1 - 1) 128) hl1 [0], hl1 + 1)
    else (buf2, hl1)
  if hdr.options &&& GIP_OPT_CHUNK = 0 then padded.1
  else writeAt padded.1 padded.2 (gip_encode_varint hdr.chunk_offset)

/-- `gip_decode_header`: decode a header from `data` (`len` bytes
available), returning the header and the count of bytes consumed. -/
def gip_decode_header (data : List Nat) (len : Nat) : GipHeader × Nat :=
  let command := data.getD 0 0
  let options := data.getD 1 0
  let sequence := data.getD 2 0
  let pkt := gip_decode_varint (data.drop 3) (len - 3)
  let hl := 3 + pkt.2
  if options &&& GIP_OPT_CHUNK = 0 then
    (⟨command, options, sequence, pkt.1, 0⟩, hl)
  else
    let chk := gip_decode_varint (data.drop hl) (len - hl)
    (⟨command, options, sequence, pkt.1, chk.1⟩, hl + chk.2)

/-- The wire bytes `gip_send_pkt_simple` submits for header `hdr` and
payload `payload`: the header is encoded into a zero-filled transport
buffer (modelled with 8 bytes of slack), the payload copied at the header
length, and the prefix of `header length + packet_length` bytes
submitted. -/
def gip_wire_packet (hdr : GipHeader) (payload : List Nat) : List Nat :=
  let hl := gip_get_header_length hdr
  let buf0 := List.replicate (hl + hdr.packet_length + 8) 0
  (writeAt (gip_encode_header hdr buf0) hl payload).take (hl + hdr.packet_length)

/-! ### Receive path: chunk reassembly and dispatch (`gip_process_*`) -/

/-- `struct gip_chunk_buffer`: declared total `length` and the byte
payload (`kzalloc` zero-fills it on allocation). -/
structure GipChunkBuffer where
  length : Nat
  data : List Nat
deriving DecidableEq, Repr

/-- The receive-path state of one client: the one-slot chunk-reassembly
buffer. -/
structure GipClientRx where
  chunkBuf : Option GipChunkBuffer
deriving DecidableEq, Repr

/-- Observable effects of the receive path: a message handed to
`gip_dispatch_pkt`, or an acknowledgement packet synthesised by
`gip_acknowledge_pkt` (transmit is modelled as succeeding). -/
inductive GipEvent where
  | dispatch (command options : Nat) (data : List Nat)
  | ack (command : Nat) (length remaining : Nat)
deriving DecidableEq, Repr

/-- The payloads handed to the dispatch layer, in order. -/
def dispatchedPayloads (evts : List GipEvent) : List (List Nat) :=
  evts.filterMap fun e =>
    match e with
    | .dispatch _ _ d => some d
    | _ => none

/-- `gip_init_chunk_buffer`: reject totals above
`GIP_CHUNK_BUF_MAX_LENGTH` (before touching the existing buffer),
otherwise free any existing buffer and allocate a zero-filled one. -/
def gip_init_chunk_buffer (st : GipClientRx) (len : Nat) : Int × GipClientRx :=
  if len > GIP_CHUNK_BUF_MAX_LENGTH then (-EINVAL, st)
  else (0, ⟨some ⟨len, List.replicate len 0⟩⟩)

/-- `gip_acknowledge_pkt`: the acknowledgement synthesised for header
`ack` — it echoes the command, reports `chunk_offset + packet_length`
received (as a little-endian u16) and, when chunking with an allocated
buffer, the bytes still remaining of the declared total (u16, computed in
u32 arithmetic then truncated, exactly as the C `cpu_to_le16` cast). -/
def gip_acknowledge_pkt (st : GipClientRx) (ack : GipHeader) : GipEvent :=
  let len := ack.chunk_offset + ack.packet_length
  let remaining :=
    if ack.options &&& GIP_OPT_CHUNK ≠ 0 then
      match st.chunkBuf with
      | some buf => ((buf.length + 2 ^ 32 - len % 2 ^ 32) % 2 ^ 32) % 2 ^ 16
      | none => 0
    else 0
  .ack ack.command (len % 2 ^ 16) remaining

/-- `gip_process_pkt_chunked`: spurious zero-length completions without a
buffer are ignored; data without a buffer is a protocol error; writes past
the declared total fail with `-EINVAL` leaving everything unchanged; a
data chunk is copied at its offset; a zero-length chunk completes the
transfer, dispatching the full buffer and freeing it. -/
def gip_process_pkt_chunked (st : GipClientRx) (hdr : GipHeader)
    (data : List Nat) : Int × GipClientRx × List GipEvent :=
  match st.chunkBuf with
  | none =>
    if hdr.packet_length = 0 then (0, st, [])
    else (-EPROTO, st, [])
  | some buf =>
    if buf.length < hdr.chunk_offset + hdr.packet_length then (-EINVAL, st, [])
    else if hdr.packet_length ≠ 0 then
      (0, ⟨some ⟨buf.length,
            writeAt buf.data hdr.chunk_offset (data.take hdr.packet_length)⟩⟩, [])
    else
      (0, ⟨none⟩, [.dispatch hdr.command hdr.options buf.data])

/-- Tail of `gip_process_pkt` after the CHUNK_START handling:
acknowledge if requested, then either the chunked path or a coherent
dispatch of `packet_length` bytes.  Handler errors inside
`gip_dispatch_pkt` are outside this model: a dispatch is recorded as an
event and succeeds. -/
def gip_process_pkt_rest (st : GipClientRx) (hdr : GipHeader)
    (data : List Nat) : Int × GipClientRx × List GipEvent :=
  let ackEvts :=
    if hdr.options &&& GIP_OPT_ACKNOWLEDGE ≠ 0 then [gip_acknowledge_pkt st hdr]
    else []
  if hdr.options &&& GIP_OPT_CHUNK ≠ 0 then
    let r := gip_process_pkt_chunked st hdr data
    (r.1, r.2.1, ackEvts ++ r.2.2)
  else
    (0, st, ackEvts ++ [.dispatch hdr.command hdr.options (data.take hdr.packet_length)])

/-- `gip_process_pkt`: on CHUNK_START allocate a chunk buffer of size
`chunk_offset` (failing out on error) and zero the header's offset, then
acknowledge/reassemble/dispatch. -/
def gip_process_pkt (st : GipClientRx) (hdr : GipHeader)
    (data : List Nat) : Int × GipClientRx × List GipEvent :=
  if hdr.options &&& GIP_OPT_CHUNK_START ≠ 0 then
    let r := gip_init_chunk_buffer st hdr.chunk_offset
    if r.1 ≠ 0 then (r.1, r.2, [])
    else gip_process_pkt_rest r.2 { hdr with chunk_offset := 0 } data
  else gip_process_pkt_rest st hdr data

/-- The bus state: one receive-path state per client id (0..15).
`gip_get_client` creates clients on demand; here all sixteen slots exist
from the start with an empty chunk buffer. -/
structure GipBusState where
  clients : List GipClientRx
deriving DecidableEq, Repr

/-- A fresh bus: sixteen clients, no chunk buffers. -/
def gip_bus_init : GipBusState := ⟨List.replicate 16 ⟨none⟩⟩

/-- Loop of `gip_process_buffer` (fuel-based recursion; the fuel is an
upper bound on the iteration count, `len` suffices since every iteration
consumes at least four bytes). -/
def gip_process_buffer_go : Nat → GipBusState → List Nat → Nat →
    Int × GipBusState × List GipEvent
  | 0, bus, _, _ => (0, bus, [])
  | fuel + 1, bus, data, len =>
    if GIP_HDR_MIN_LENGTH < len then
      let dec := gip_decode_header data len
      let hdr := dec.1
      let hl := dec.2
      if len < hl + hdr.packet_length then (-EINVAL, bus, [])
      else
        let cid := hdr.options &&& 15
        let st := (bus.clients.getD cid ⟨none⟩)
        let r := gip_process_pkt st hdr (data.drop hl)
        let bus2 : GipBusState := ⟨bus.clients.set cid r.2.1⟩
        if r.1 ≠ 0 then (r.1, bus2, r.2.2)
        else
          let rest := gip_process_buffer_go fuel bus2
            (data.drop (hl + hdr.packet_length)) (len - (hl + hdr.packet_length))
          (rest.1, rest.2.1, r.2.2 ++ rest.2.2)
    else (0, bus, [])

/-- `gip_process_buffer`: decode and process packets while more than
`GIP_HDR_MIN_LENGTH` bytes remain, failing with `-EINVAL` when the
remaining buffer is shorter than the decoded header plus the declared
packet length. -/
def gip_process_buffer (bus : GipBusState) (data : List Nat) (len : Nat) :
    Int × GipBusState × List GipEvent :=
  gip_process_buffer_go (len + 1) bus data len

/-- Process a list of already-decoded packets through `gip_process_pkt`
for a single client, stopping at the first error (each transport delivery
aborts on error, as `gip_process_buffer` does). -/
def gip_process_packets (st : GipClientRx) :
    List (GipHeader × List Nat) → Int × GipClientRx × List GipEvent
  | [] => (0, st, [])
  | (hdr, data) :: rest =>
    let r := gip_process_pkt st hdr data
    if r.1 ≠ 0 then (r.1, r.2.1, r.2.2)
    else
      let r2 := gip_process_packets r.2.1 rest
      (r2.1, r2.2.1, r.2.2 ++ r2.2.2)

/-! ### Send path: sequence numbers (`gip_send_pkt*`, audio) -/

/-- The two 8-bit sequence counters of `struct gip_adapter`. -/
structure GipAdapter where
  data_sequence : Nat
  audio_sequence : Nat
deriving DecidableEq, Repr

/-- The `while (!hdr->sequence) hdr->sequence = adap->data_sequence++;`
loop of `gip_send_pkt_simple`: a caller-set non-zero sequence is kept and
the counter untouched; otherwise the counter is drawn (u8, post-increment
wrapping at 256) until the drawn value is non-zero. -/
def gip_draw_data_sequence (seq ctr : Nat) : Nat × Nat :=
  if seq ≠ 0 then (seq, ctr)
  else if ctr ≠ 0 then (ctr, (ctr + 1) % 256)
  else (1, 2)

/-- The `do { hdr.sequence = audio_sequence++; } while (!hdr.sequence);`
loop of `gip_copy_audio_samples`: always draws at least once. -/
def gip_draw_audio_sequence (ctr : Nat) : Nat × Nat :=
  if ctr ≠ 0 then (ctr, (ctr + 1) % 256)
  else (1, 2)

/-- `gip_send_pkt_simple`: acquire a TX buffer (modelled as `bufLen` zero
bytes, always available), fail with `-ENOSPC` when the packet does not
fit, draw a non-zero sequence number, encode and submit.  Returns the
errno, the updated adapter and the submitted wire packets. -/
def gip_send_pkt_simple (adap : GipAdapter) (hdr : GipHeader)
    (payload : List Nat) (bufLen : Nat) : Int × GipAdapter × List (List Nat) :=
  let hl := gip_get_header_length hdr
  if bufLen < hl + hdr.packet_length then (-ENOSPC, adap, [])
  else
    let d := gip_draw_data_sequence hdr.sequence adap.data_sequence
    let hdr2 := { hdr with sequence := d.1 }
    let wire := (writeAt (gip_encode_header hdr2 (List.replicate bufLen 0))
      hl payload).take (hl + hdr2.packet_length)
    (0, { adap with data_sequence := d.2 }, [wire])

/-- Loop of `gip_send_pkt` for payloads above `GIP_PKT_MAX_LENGTH`:
returns the data-chunk packets (header, payload slice) in submission
order together with the header value left behind for the completion
packet.  `total` is the full payload length (`len` in the C code);
`hdr.options &&& 175` models `options &= ~(GIP_OPT_ACKNOWLEDGE |
GIP_OPT_CHUNK_START)`. -/
def gip_send_pkt_chunks_go (hdr : GipHeader) (total : Nat) (data : List Nat)
    (remaining : Nat) : List (GipHeader × List Nat) × GipHeader :=
  if h : remaining = 0 then ([], hdr)
  else
    let hdrA :=
      if remaining ≤ GIP_PKT_MAX_LENGTH then
        { hdr with options := hdr.options ||| GIP_OPT_ACKNOWLEDGE }
      else hdr
    let pl := min remaining GIP_PKT_MAX_LENGTH
    let hdrB := { hdrA with packet_length := pl }
    let hdrC := { hdrB with options := hdrB.options &&& 175,
                            chunk_offset := total - (remaining - pl) }
    let rest := gip_send_pkt_chunks_go hdrC total (data.drop pl) (remaining - pl)
    ((hdrB, data.take pl) :: rest.1, rest.2)
termination_by remaining
decreasing_by simp [GIP_PKT_MAX_LENGTH]; omega

/-- `gip_send_pkt`: payloads of at most 58 bytes go out as a single
packet; larger payloads are split into chunks — the start chunk carries
`ACKNOWLEDGE | CHUNK_START | CHUNK` and the total in `chunk_offset`, the
last data chunk adds `ACKNOWLEDGE`, and a final zero-length chunk with the
total in `chunk_offset` completes the transfer. -/
def gip_send_pkt_packets (hdr : GipHeader) (data : List Nat) :
    List (GipHeader × List Nat) :=
  if hdr.packet_length ≤ GIP_PKT_MAX_LENGTH then [(hdr, data.take hdr.packet_length)]
  else
    let len := hdr.packet_length
    let hdr0 := { hdr with
      options := hdr.options ||| (GIP_OPT_ACKNOWLEDGE ||| GIP_OPT_CHUNK_START |||
        GIP_OPT_CHUNK),
      chunk_offset := len }
    let r := gip_send_pkt_chunks_go hdr0 len data len
    r.1 ++ [({ r.2 with packet_length := 0, chunk_offset := len }, [])]

/-- The §4.2-conforming packet sequence for a payload split into
`chunks`: mirrors the flag pattern of `gip_send_pkt` (start chunk:
`ACKNOWLEDGE | CHUNK_START | CHUNK` with the total in `chunk_offset`;
middle chunks: `CHUNK` at their cumulative offset; last data chunk adds
`ACKNOWLEDGE`; terminal chunk: `CHUNK`, zero length, total offset). -/
def gip_mk_chunks_go (base : GipHeader) (offset : Nat) :
    List (List Nat) → List (GipHeader × List Nat)
  | [] => []
  | [c] =>
    [({ base with options := base.options ||| (GIP_OPT_CHUNK ||| GIP_OPT_ACKNOWLEDGE),
                  packet_length := c.length, chunk_offset := offset }, c)]
  | c :: c2 :: rest =>
    ({ base with options := base.options ||| GIP_OPT_CHUNK,
                 packet_length := c.length, chunk_offset := offset }, c) ::
    gip_mk_chunks_go base (offset + c.length) (c2 :: rest)

/-- Full conforming chunk-packet sequence for base header `base` and
chunk list `chunks` (the reassembled payload is `chunks.flatten`). -/
def gip_mk_conforming_packets (base : GipHeader) (chunks : List (List Nat)) :
    List (GipHeader × List Nat) :=
  let total := chunks.flatten.length
  match chunks with
  | [] => []
  | c0 :: rest =>
    ({ base with options := base.options ||| (GIP_OPT_ACKNOWLEDGE ||| GIP_OPT_CHUNK_START ||| GIP_OPT_CHUNK),
                 packet_length := c0.length, chunk_offset := total }, c0) ::
    gip_mk_chunks_go base c0.length rest ++
    [({ base with options := base.options ||| GIP_OPT_CHUNK,
                  packet_length := 0, chunk_offset := total }, [])]

/-- `struct gip_audio_config`: the fields used by the audio TX path. -/
structure GipAudioConfig where
  fragment_size : Nat
  packet_size : Nat
deriving DecidableEq, Repr

/-- Loop of `gip_copy_audio_samples`: stamp `count` packets, each with a
freshly drawn non-zero audio sequence number, the encoded header and one
`fragment_size` slice of the sample buffer (each `packet_size` destination
region is modelled as its own zero-filled list). -/
def gip_copy_audio_samples_go (cfg : GipAudioConfig) (hdr : GipHeader)
    (hl : Nat) : GipAdapter → List Nat → Nat → GipAdapter × List (List Nat)
  | adap, _, 0 => (adap, [])
  | adap, samples, n + 1 =>
    let d := gip_draw_audio_sequence adap.audio_sequence
    let hdr2 := { hdr with sequence := d.1 }
    let pkt := writeAt (gip_encode_header hdr2 (List.replicate cfg.packet_size 0))
      hl (samples.take cfg.fragment_size)
    let r := gip_copy_audio_samples_go cfg hdr hl { adap with audio_sequence := d.2 }
      (samples.drop cfg.fragment_size) n
    (r.1, pkt :: r.2)

/-- `gip_copy_audio_samples`: the audio packets written for client
`clientId` and `count = adapter->audio_packet_count`. -/
def gip_copy_audio_samples (adap : GipAdapter) (clientId : Nat)
    (cfg : GipAudioConfig) (count : Nat) (samples : List Nat) :
    GipAdapter × List (List Nat) :=
  let hdr : GipHeader :=
    ⟨GIP_CMD_AUDIO_SAMPLES, clientId ||| GIP_OPT_INTERNAL, 0, cfg.fragment_size, 0⟩
  gip_copy_audio_samples_go cfg hdr (gip_get_header_length hdr) adap samples count

/-! ### Message handlers: `gip_handle_pkt_announce` -/

/-- `struct gip_hardware`: the identity filled in from the first
Announce. -/
structure GipHardware where
  vendor : Nat
  product : Nat
  version : Nat
deriving DecidableEq, Repr

/-- Little-endian u16 read at offset `off`. -/
def le16At (data : List Nat) (off : Nat) : Nat :=
  data.getD off 0 + 256 * data.getD (off + 1) 0

/-- `gip_handle_pkt_announce`: a packet whose length is not exactly
`sizeof(struct gip_pkt_announce)` (28 bytes) is rejected; the hardware
identity is filled only when vendor, product and version are all still
zero; every accepted packet triggers `gip_request_identification`
(modelled as the returned `Bool`). -/
def gip_handle_pkt_announce (hw : GipHardware) (data : List Nat) (len : Nat) :
    Int × GipHardware × Bool :=
  if len ≠ 28 then (-EINVAL, hw, false)
  else
    let hw2 :=
      if hw.vendor = 0 ∧ hw.product = 0 ∧ hw.version = 0 then
        { vendor := le16At data 8, product := le16At data 10,
          version := (le16At data 12 <<< 8) ||| le16At data 14 }
      else hw
    (0, hw2, true)

/-! ### Transport ops: `gip_set_encryption_key` -/

/-- The optional `set_encryption_key` member of
`struct gip_adapter_ops`; the function models the transport call and
returns its errno. -/
structure GipAdapterOps where
  set_encryption_key : Option (List Nat → Int)

/-- `gip_set_encryption_key`: succeed without doing anything when the
transport provides no `set_encryption_key` operation; otherwise call it.
The second component lists the keys actually installed on the
transport. -/
def gip_set_encryption_key (ops : GipAdapterOps) (key : List Nat) :
    Int × List (List Nat) :=
  match ops.set_encryption_key with
  | none => (0, [])
  | some f => (f key, [key])

/-! ### Authentication engine (`auth/auth.c`, `auth/crypto.c`) -/

/-- `GIP_AUTH_SECRET_LEN`: length of the v1 pre-master secret and of the
master secret. -/
def GIP_AUTH_SECRET_LEN : Nat := 48

/-- `GIP_AUTH_SESSION_KEY_LEN`. -/
def GIP_AUTH_SESSION_KEY_LEN : Nat := 16

/-- `GIP_AUTH_TRANSCRIPT_LEN` (SHA-256 digest length). -/
def GIP_AUTH_TRANSCRIPT_LEN : Nat := 32

/-- `GIP_AUTH_CTX_CONTROL`. -/
def GIP_AUTH_CTX_CONTROL : Nat := 0x01

/-- `GIP_AUTH_CTRL_COMPLETE`. -/
def GIP_AUTH_CTRL_COMPLETE : Nat := 0x00

/-- ASCII bytes of a label string. -/
def strBytes (s : String) : List Nat := s.data.map Char.toNat

/-- Loop of `gip_auth_compute_prf` (TLS 1.2 P_SHA256), parameterised by
the HMAC primitive `hmac key message` (the kernel's `hmac(sha256)`, a
32-byte digest).  Each round hashes `A(i) ++ label ++ seed`, copies
`min(out_len, 32)` bytes, advances by 32, and sets `A(i+1) = HMAC(key,
A(i))`. -/
def gip_auth_compute_prf_go (hmac : List Nat → List Nat → List Nat)
    (key label seed : List Nat) : Nat → List Nat → Nat → List Nat
  | 0, _, _ => []
  | fuel + 1, hash, rem =>
    if rem = 0 then []
    else
      let hashOut := hmac key (hash ++ label ++ seed)
      hashOut.take (min rem 32) ++
        gip_auth_compute_prf_go hmac key label seed fuel (hmac key hash) (rem - 32)

/-- `gip_auth_compute_prf` with `A(1) = HMAC(key, label ++ seed)`; every
round emits at least one byte, so `outLen` rounds of fuel are exact. -/
def gip_auth_compute_prf (hmac : List Nat → List Nat → List Nat)
    (label key seed : List Nat) (outLen : Nat) : List Nat :=
  gip_auth_compute_prf_go hmac key label seed outLen (hmac key (label ++ seed))
    outLen

/-- The per-client authentication context (`struct gip_auth`), reduced to
the fields the completion path reads; `transcript` is the digest
`gip_auth_get_transcript` would currently extract. -/
structure GipAuth where
  random_host : List Nat
  random_client : List Nat
  master_secret : List Nat
  transcript : List Nat

/-- Observable effects of the authentication completion path. -/
inductive GipAuthEvent where
  | sendAuth (bytes : List Nat) (acknowledge : Bool)
  | setKey (key : List Nat)
deriving DecidableEq, Repr

/-- `gip_auth_handle_pkt_finish`: reject short packets
(`sizeof(struct gip_auth_pkt_client_finish)` = 64), recompute
`PRF("Device Finished", master_secret, transcript)` and compare it with
the packet's Finished value; on mismatch fail with `-EPROTO`, on match
schedule the completion work item (the returned `Bool`). -/
def gip_auth_handle_pkt_finish (hmac : List Nat → List Nat → List Nat)
    (auth : GipAuth) (data : List Nat) (len : Nat) : Int × Bool :=
  if len < 64 then (-EINVAL, false)
  else
    let finished := gip_auth_compute_prf hmac (strBytes "Device Finished")
      auth.master_secret auth.transcript GIP_AUTH_TRANSCRIPT_LEN
    if data.take GIP_AUTH_TRANSCRIPT_LEN = finished then (0, true)
    else (-EPROTO, false)

/-- `gip_auth_complete_handshake`: derive the session key as
`PRF("EXPORTER DAWN …", master_secret, host_random ++ client_random)` with
`GIP_AUTH_SESSION_KEY_LEN` output bytes, send the control-context
Complete packet and install the key via `gip_set_encryption_key`. -/
def gip_auth_complete_handshake (hmac : List Nat → List Nat → List Nat)
    (auth : GipAuth) (ops : GipAdapterOps) : List GipAuthEvent :=
  let random := auth.random_host ++ auth.random_client
  let key := gip_auth_compute_prf hmac
    (strBytes "EXPORTER DAWN data channel session key for controller")
    auth.master_secret random GIP_AUTH_SESSION_KEY_LEN
  let r := gip_set_encryption_key ops key
  [GipAuthEvent.sendAuth [GIP_AUTH_CTX_CONTROL, GIP_AUTH_CTRL_COMPLETE] false] ++
    r.2.map GipAuthEvent.setKey

/-- The ClientFinish packet's end-to-end effect: verification by
`gip_auth_handle_pkt_finish` followed — only when the work item was
scheduled — by `gip_auth_complete_handshake`. -/
def gip_auth_finish_flow (hmac : List Nat → List Nat → List Nat)
    (auth : GipAuth) (ops : GipAdapterOps) (data : List Nat) (len : Nat) :
    Int × List GipAuthEvent :=
  let r := gip_auth_handle_pkt_finish hmac auth data len
  if r.2 then (r.1, gip_auth_complete_handshake hmac auth ops)
  else (r.1, [])

/-- `sizeof(u8 *)` on the 64-bit target the driver is built for. -/
def sizeof_u8_ptr : Nat := 8

/-- The crypto-API call sizes of the v1
`gip_auth_compute_master_secret`, exactly as the C code computes them:
`get_random_bytes(pms, sizeof(pms))` and
`gip_auth_compute_prf(…, pms, sizeof(pms), …)` with `pms` of type `u8 *`,
and `gip_auth_encrypt_rsa(…, pms, GIP_AUTH_SECRET_LEN, …)`. -/
structure GipAuthV1Sizes where
  random_bytes_requested : Nat
  prf_key_len : Nat
  rsa_plaintext_len : Nat
deriving DecidableEq, Repr

/-- The sizes actually used by the v1 master-secret computation. -/
def gip_auth_compute_master_secret_sizes : GipAuthV1Sizes :=
  { random_bytes_requested := sizeof_u8_ptr,
    prf_key_len := sizeof_u8_ptr,
    rsa_plaintext_len := GIP_AUTH_SECRET_LEN }

/-- Value-level model of the v1 `gip_auth_compute_master_secret`: the
`kmalloc`ed 48-byte pre-master buffer receives `sizeof(u8 *) = 8` random
bytes, its remaining 40 bytes keep their uninitialised contents `uninit`,
and the PRF is keyed by only the first `sizeof(u8 *)` bytes. -/
def gip_auth_compute_master_secret_v1 (hmac : List Nat → List Nat → List Nat)
    (auth : GipAuth) (randomBytes uninit : List Nat) : List Nat :=
  let pms := randomBytes.take sizeof_u8_ptr ++
    uninit.take (GIP_AUTH_SECRET_LEN - sizeof_u8_ptr)
  let random := auth.random_host ++ auth.random_client
  gip_auth_compute_prf hmac (strBytes "Master Secret") (pms.take sizeof_u8_ptr)
    random GIP_AUTH_SECRET_LEN

/-! ### Dongle client table (`transport/dongle.c`) -/

/-- `struct xone_dongle_client`, reduced to the identity fields. -/
structure XoneDongleClient where
  wcid : Nat
  address : List Nat
deriving DecidableEq, Repr

/-- The dongle's `clients[XONE_DONGLE_MAX_CLIENTS]` array. -/
structure XoneDongleState where
  clients : List (Option XoneDongleClient)
deriving DecidableEq, Repr

/-- A freshly initialised dongle: sixteen empty slots. -/
def xone_dongle_init : XoneDongleState := ⟨List.replicate 16 none⟩

/-- The `for (i = 0; …; i++) if (!dongle->clients[i]) break;` scan of
`xone_dongle_create_client`: index of the first empty slot (the list
length when none is empty). -/
def xone_dongle_find_free : List (Option XoneDongleClient) → Nat
  | [] => 0
  | none :: _ => 0
  | some _ :: rest => 1 + xone_dongle_find_free rest

/-- `xone_dongle_create_client`: fail with `-ENOSPC` when all sixteen
slots are occupied, otherwise build a record whose WCID is the lowest
empty slot index plus one. -/
def xone_dongle_create_client (st : XoneDongleState) (addr : List Nat) :
    Except Int XoneDongleClient :=
  let i := xone_dongle_find_free st.clients
  if i = 16 then .error (-ENOSPC)
  else .ok ⟨i + 1, addr⟩

/-- `xone_dongle_add_client`: create the record and store it at
`clients[wcid - 1]` (the radio-MAC association and LED calls are external
and modelled as succeeding). -/
def xone_dongle_add_client (st : XoneDongleState) (addr : List Nat) :
    Int × XoneDongleState :=
  match xone_dongle_create_client st addr with
  | .error e => (e, st)
  | .ok c => (0, ⟨st.clients.set (c.wcid - 1) (some c)⟩)

/-- `xone_dongle_remove_client`: a no-op for an empty slot, otherwise
clear `clients[wcid - 1]`. -/
def xone_dongle_remove_client (st : XoneDongleState) (wcid : Nat) :
    XoneDongleState :=
  match st.clients.getD (wcid - 1) none with
  | none => st
  | some _ => ⟨st.clients.set (wcid - 1) none⟩

/-- States the dongle event queue can reach from a fresh dongle by any
interleaving of association and disassociation events. -/
inductive XoneDongleReachable : XoneDongleState → Prop where
  | init : XoneDongleReachable xone_dongle_init
  | add (st : XoneDongleState) (addr : List Nat) :
      XoneDongleReachable st → XoneDongleReachable (xone_dongle_add_client st addr).2
  | remove (st : XoneDongleState) (wcid : Nat) :
      XoneDongleReachable st → XoneDongleReachable (xone_dongle_remove_client st wcid)

/-- The MAC address used in the duplicate-association scenario. -/
def xone_cex_addr : List Nat := [2, 17, 34, 51, 68, 85]

/-- The dongle state after two association events from the same MAC
address (no disassociation in between). -/
def xone_cex_state : XoneDongleState :=
  (xone_dongle_add_client (xone_dongle_add_client xone_dongle_init xone_cex_addr).2
    xone_cex_addr).2

/-! ### Helper definitions used to state the codec characterisation -/

/-- OR `128` into the final byte of a list (the effect of the padding
rule `buf[hdr_len - 1] |= BIT(7)` on the last varint byte). -/
def markLast : List Nat → List Nat
  | [] => []
  | [x] => [x ||| 128]
  | x :: y :: r => x :: markLast (y :: r)

/-- The clean byte-level characterisation of an encoded header: three
fixed bytes, the packet-length varint (last byte marked continued and a
zero byte appended when the actual header length is odd), then the
chunk-offset varint when the CHUNK flag is set. -/
def gip_header_bytes (hdr : GipHeader) : List Nat :=
  let pv := gip_encode_varint hdr.packet_length
  let pkt := if gip_get_actual_header_length hdr % 2 = 1 then markLast pv ++ [0] else pv
  let chk := if hdr.options &&& GIP_OPT_CHUNK = 0 then []
             else gip_encode_varint hdr.chunk_offset
  [hdr.command, hdr.options, hdr.sequence] ++ pkt ++ chk

/-- The split `gip_send_pkt` performs on a long payload: successive
slices of `GIP_PKT_MAX_LENGTH` (58) bytes. -/
def gip_chunks_of : List Nat → List (List Nat)
  | [] => []
  | x :: xs =>
    (x :: xs).take GIP_PKT_MAX_LENGTH ::
      gip_chunks_of ((x :: xs).drop GIP_PKT_MAX_LENGTH)
termination_by l => l.length
decreasing_by simp [GIP_PKT_MAX_LENGTH]; omega

/-- The WCID bookkeeping invariant of the dongle client table: sixteen
slots, and every occupied slot `i` holds the record with WCID `i + 1`. -/
def xone_wcid_inv (st : XoneDongleState) : Prop :=
  st.clients.length = 16 ∧
    ∀ (i : Nat) (c : XoneDongleClient),
      st.clients.getD i none = some c → c.wcid = i + 1

/-- A dongle whose sixteen slots are all occupied (used to exercise the
`-ENOSPC` branch of `xone_dongle_create_client`). -/
def xone_full_state : XoneDongleState :=
  ⟨(List.range 16).map fun i => some ⟨i + 1, xone_cex_addr⟩⟩

/-! ## Lemmas -/

set_option maxRecDepth 8192

theorem byte_or128_and127 (a : Nat) (h : a < 256) : (a ||| 128) &&& 127 = a % 128 :=
  (by decide : ∀ b : Fin 256, (b.val ||| 128) &&& 127 = b.val % 128) ⟨a, h⟩

theorem byte_or128_and128 (a : Nat) (h : a < 256) : (a ||| 128) &&& 128 = 128 :=
  (by decide : ∀ b : Fin 256, (b.val ||| 128) &&& 128 = 128) ⟨a, h⟩

theorem byte_small_and128 (a : Nat) (h : a < 128) : a &&& 128 = 0 :=
  (by decide : ∀ b : Fin 128, b.val &&& 128 = 0) ⟨a, h⟩

theorem byte_small_and127 (a : Nat) (h : a < 128) : a &&& 127 = a :=
  (by decide : ∀ b : Fin 128, b.val &&& 127 = b.val) ⟨a, h⟩

theorem lor_shift_add (k a b : Nat) (h : a < 2 ^ k) :
    a ||| (b <<< k) = a + b * 2 ^ k := by
  induction k generalizing a b with
  | zero =>
    interval_cases a
    simp [Nat.shiftLeft_eq]
  | succ k ih =>
    have ha2 : a.div2 < 2 ^ k := by
      rw [Nat.div2_val, Nat.div_lt_iff_lt_mul (by norm_num)]
      calc a < 2 ^ (k + 1) := h
        _ = 2 ^ k * 2 := by ring
    have hsh : b <<< (k + 1) = Nat.bit false (b <<< k) := by
      simp [Nat.bit_false, Nat.shiftLeft_eq]
      ring
    calc a ||| (b <<< (k + 1))
        = Nat.bit a.bodd a.div2 ||| Nat.bit false (b <<< k) := by
          rw [Nat.bit_decomp, hsh]
      _ = Nat.bit (a.bodd || false) (a.div2 ||| (b <<< k)) := Nat.lor_bit _ _ _ _
      _ = Nat.bit a.bodd (a.div2 + b * 2 ^ k) := by rw [Bool.or_false, ih _ _ ha2]
      _ = a + b * 2 ^ (k + 1) := by
          rw [Nat.bit_val]
          have h1 := Nat.bodd_add_div2 a
          have h2 : b * 2 ^ (k + 1) = 2 * (b * 2 ^ k) := by ring
          omega

theorem pow128_eq (i : Nat) : (128 : Nat) ^ i = 2 ^ (7 * i) := by
  rw [pow_mul]
  norm_num

/-! ### `writeAt` and `orByteAt` -/

theorem writeAt_nil_right (buf : List Nat) (p : Nat) : writeAt buf p [] = buf := by
  simp [writeAt]

theorem writeAt_replicate_zero (xs : List Nat) :
    ∀ n a, xs.length ≤ n →
      writeAt (List.replicate n a) 0 xs = xs ++ List.replicate (n - xs.length) a := by
  induction xs with
  | nil => intro n a _; simp [writeAt_nil_right]
  | cons x xs ih =>
    intro n a h
    match n with
    | m + 1 =>
      simp only [List.replicate_succ, writeAt, List.cons_append]
      rw [ih m a (by simpa using h)]
      simp

theorem writeAt_append_right (ys : List Nat) :
    ∀ (zs xs : List Nat) (p : Nat),
      writeAt (ys ++ zs) (ys.length + p) xs = ys ++ writeAt zs p xs := by
  induction ys with
  | nil => intro zs xs p; simp
  | cons y ys ih =>
    intro zs xs p
    cases xs with
    | nil => simp [writeAt_nil_right]
    | cons x xs =>
      simp only [List.cons_append, List.length_cons]
      have : ys.length + 1 + p = (ys.length + p) + 1 := by omega
      rw [this]
      simp only [writeAt]
      rw [ih]

theorem writeAt_prefix_eq (ys zs xs : List Nat) :
    writeAt (ys ++ zs) ys.length xs = ys ++ writeAt zs 0 xs := by
  have := writeAt_append_right ys zs xs 0
  simpa using this

theorem orByteAt_cons_succ (b : Nat) (bs : List Nat) (p v : Nat) :
    orByteAt (b :: bs) (p + 1) v = b :: orByteAt bs p v := by
  simp [orByteAt]

theorem orByteAt_append (ys : List Nat) :
    ∀ (zs : List Nat) (q v : Nat),
      orByteAt (ys ++ zs) (ys.length + q) v = ys ++ orByteAt zs q v := by
  induction ys with
  | nil => intro zs q v; simp
  | cons y ys ih =>
    intro zs q v
    simp only [List.cons_append, List.length_cons]
    have : ys.length + 1 + q = (ys.length + q) + 1 := by omega
    rw [this, orByteAt_cons_succ, ih]

theorem markLast_length : ∀ xs : List Nat, (markLast xs).length = xs.length
  | [] => rfl
  | [_] => rfl
  | _ :: y :: r => by
    simp only [markLast, List.length_cons]
    rw [markLast_length (y :: r)]
    simp

theorem orByteAt_last (xs : List Nat) (h : xs ≠ []) :
    ∀ tail, orByteAt (xs ++ tail) (xs.length - 1) 128 = markLast xs ++ tail := by
  induction xs with
  | nil => exact absurd rfl h
  | cons x xs ih =>
    intro tail
    cases xs with
    | nil => simp [orByteAt, markLast]
    | cons y r =>
      have h1 : (x :: y :: r).length - 1 = r.length + 1 := by simp
      have h2 : (x :: y :: r) ++ tail = x :: ((y :: r) ++ tail) := rfl
      rw [h1, h2, orByteAt_cons_succ]
      have h3 := ih (by simp) tail
      have h4 : (y :: r).length - 1 = r.length := by simp
      rw [h4] at h3
      rw [h3]
      rfl

/-! ### Varint round-trip -/

theorem gip_varint_digits_small {v : Nat} (h : v < 128) : gip_varint_digits v = 1 := by
  simp [gip_varint_digits, gip_varint_digits_go, h]

theorem gip_varint_digits_large {v : Nat} (h : 128 ≤ v) (hb : v < 2 ^ 28) :
    gip_varint_digits v = 1 + gip_varint_digits (v / 128) := by
  simp only [gip_varint_digits, gip_varint_digits_go]
  split_ifs <;> omega

theorem gip_varint_digits_pos (v : Nat) : 1 ≤ gip_varint_digits v := by
  simp only [gip_varint_digits, gip_varint_digits_go]
  split_ifs <;> omega

theorem gip_varint_digits_le4 {v : Nat} (h : v < 2 ^ 28) : gip_varint_digits v ≤ 4 := by
  simp only [gip_varint_digits, gip_varint_digits_go]
  split_ifs <;> omega

theorem gip_encode_varint_go_length : ∀ (f v : Nat), gip_varint_digits v ≤ f →
    v < 2 ^ 28 → (gip_encode_varint_go v f).length = gip_varint_digits v := by
  intro f
  induction f with
  | zero => intro v hv _; have := gip_varint_digits_pos v; omega
  | succ f ih =>
    intro v hv hb
    by_cases h : v < 128
    · have hd : v / 128 = 0 := Nat.div_eq_of_lt h
      simp [gip_encode_varint_go, hd, gip_varint_digits_small h]
    · have hd : v / 128 ≠ 0 := by
        have : 1 ≤ v / 128 := (Nat.le_div_iff_mul_le (by norm_num)).mpr (by omega)
        omega
      rw [gip_varint_digits_large (by omega) hb] at hv ⊢
      simp only [gip_encode_varint_go, hd, if_false, List.length_cons]
      rw [ih (v / 128) (by omega) (by omega)]
      omega

theorem gip_encode_varint_ret_go_eq : ∀ (f v : Nat), gip_varint_digits v ≤ f →
    v < 2 ^ 28 → gip_encode_varint_ret_go v f = gip_varint_digits v := by
  intro f
  induction f with
  | zero => intro v hv _; have := gip_varint_digits_pos v; omega
  | succ f ih =>
    intro v hv hb
    by_cases h : v < 128
    · have hd : v / 128 = 0 := Nat.div_eq_of_lt h
      simp [gip_encode_varint_ret_go, hd, gip_varint_digits_small h]
    · have hd : v / 128 ≠ 0 := by
        have : 1 ≤ v / 128 := (Nat.le_div_iff_mul_le (by norm_num)).mpr (by omega)
        omega
      rw [gip_varint_digits_large (by omega) hb] at hv ⊢
      simp only [gip_encode_varint_ret_go, hd, if_false]
      rw [ih (v / 128) (by omega) (by omega)]

theorem gip_encode_varint_length {v : Nat} (h : v < 2 ^ 28) :
    (gip_encode_varint v).length = gip_varint_digits v :=
  gip_encode_varint_go_length 4 v (gip_varint_digits_le4 h) h

theorem gip_encode_varint_ret_eq {v : Nat} (h : v < 2 ^ 28) :
    gip_encode_varint_ret v = gip_varint_digits v :=
  gip_encode_varint_ret_go_eq 4 v (gip_varint_digits_le4 h) h

theorem gip_decode_varint_go_zero_byte :
    ∀ (g : Nat) (data rest : List Nat) (len i acc : Nat), data.length = i →
      gip_decode_varint_go (data ++ 0 :: rest) len g i acc = (acc, i + 1) := by
  intro g data rest len i acc hlen
  cases g with
  | zero => rfl
  | succ g =>
    simp only [gip_decode_varint_go]
    by_cases h : i < len
    · have hb : (data ++ 0 :: rest)[i]? = some 0 := by
        rw [← hlen, List.getElem?_append_right (le_refl _)]
        simp
      simp [h, hb]
    · simp [h]

theorem gip_decode_varint_go_spec :
    ∀ (g f v i acc : Nat) (data rest : List Nat) (len : Nat),
      v < 2 ^ 28 →
      gip_varint_digits v ≤ g → gip_varint_digits v ≤ f →
      data.length = i → acc < 128 ^ i → i + gip_varint_digits v ≤ len →
      gip_decode_varint_go (data ++ gip_encode_varint_go v f ++ rest) len g i acc
        = (acc + v * 128 ^ i, i + gip_varint_digits v) := by
  intro g
  induction g with
  | zero => intro f v i acc data rest len _ hg; have := gip_varint_digits_pos v; omega
  | succ g ih =>
    intro f v i acc data rest len hb hg hf hdata hacc hlen
    have hvpos := gip_varint_digits_pos v
    have hilen : i < len := by omega
    match f with
    | 0 => omega
    | f + 1 =>
      by_cases hv : v < 128
      · -- single byte, no continuation bit
        have hd0 : v / 128 = 0 := Nat.div_eq_of_lt hv
        have henc : gip_encode_varint_go v (f + 1) = [v] := by
          simp [gip_encode_varint_go, hd0, Nat.mod_eq_of_lt (by omega : v < 256),
            if_neg (by omega : ¬ 127 < v)]
        rw [henc]
        simp only [gip_decode_varint_go, hilen, if_true]
        have hb : (data ++ [v] ++ rest)[i]? = some v := by
          rw [← hdata, List.append_assoc, List.getElem?_append_right (le_refl _)]
          simp
        rw [List.getD_eq_getElem?_getD, hb]
        simp only [Option.getD_some]
        rw [byte_small_and127 v hv, byte_small_and128 v hv]
        rw [lor_shift_add (7 * i) acc v (by rw [← pow128_eq]; exact hacc), ← pow128_eq,
          gip_varint_digits_small hv]
        simp
      · -- continuation byte
        have hd : v / 128 ≠ 0 := by
          have : 1 ≤ v / 128 := (Nat.le_div_iff_mul_le (by norm_num)).mpr (by omega)
          omega
        have hdig := gip_varint_digits_large (by omega : 128 ≤ v) hb
        set b := (v % 256) ||| 128 with hbdef
        have henc : gip_encode_varint_go v (f + 1)
            = b :: gip_encode_varint_go (v / 128) f := by
          simp [gip_encode_varint_go, hd, if_pos (by omega : 127 < v)]
        rw [henc]
        simp only [gip_decode_varint_go, hilen, if_true]
        have hbyte : (data ++ (b :: gip_encode_varint_go (v / 128) f) ++ rest)[i]? = some b := by
          rw [← hdata, List.append_assoc, List.getElem?_append_right (le_refl _)]
          simp
        rw [List.getD_eq_getElem?_getD, hbyte]
        simp only [Option.getD_some]
        have hmod : v % 256 < 256 := Nat.mod_lt _ (by norm_num)
        rw [if_neg (by rw [hbdef, byte_or128_and128 _ hmod]; omega)]
        have hand : b &&& 127 = v % 128 := by
          rw [hbdef, byte_or128_and127 _ hmod,
            Nat.mod_mod_of_dvd v (by norm_num : (128 : ℕ) ∣ 256)]
        have hacc2 : acc ||| ((b &&& 127) <<< (7 * i)) = acc + (v % 128) * 128 ^ i := by
          rw [hand, lor_shift_add (7 * i) acc (v % 128) (by rw [← pow128_eq]; exact hacc),
            ← pow128_eq]
        rw [hacc2]
        have hlist : data ++ (b :: gip_encode_varint_go (v / 128) f) ++ rest
            = (data ++ [b]) ++ gip_encode_varint_go (v / 128) f ++ rest := by
          simp
        rw [hlist]
        have hpow : (128 : ℕ) ^ (i + 1) = 128 ^ i * 128 := by ring
        have hacclt : acc + (v % 128) * 128 ^ i < 128 ^ (i + 1) := by
          have h127 : v % 128 ≤ 127 := by omega
          have h2 : (v % 128) * 128 ^ i ≤ 127 * 128 ^ i := Nat.mul_le_mul_right _ h127
          have hp : 1 ≤ (128 : ℕ) ^ i := Nat.one_le_pow _ _ (by norm_num)
          rw [hpow]
          omega
        have hdivb : v / 128 < 2 ^ 28 := by
          have := Nat.div_le_self v 128
          omega
        have hrec := ih f (v / 128) (i + 1) (acc + (v % 128) * 128 ^ i) (data ++ [b]) rest len
          hdivb (by omega) (by omega) (by simp [hdata]) hacclt (by omega)
        rw [hrec, Prod.mk.injEq]
        refine ⟨?_, by omega⟩
        have hsplit : v % 128 + 128 * (v / 128) = v := Nat.mod_add_div v 128
        rw [hpow]
        have hring : acc + (v % 128) * 128 ^ i + v / 128 * (128 ^ i * 128)
            = acc + (v % 128 + 128 * (v / 128)) * 128 ^ i := by ring
        rw [hring, hsplit]

theorem gip_decode_varint_enc (v : Nat) (rest : List Nat) (len : Nat)
    (hv : v < 2 ^ 28) (hlen : gip_varint_digits v ≤ len) :
    gip_decode_varint (gip_encode_varint v ++ rest) len = (v, gip_varint_digits v) := by
  have hd4 : gip_varint_digits v ≤ 4 := gip_varint_digits_le4 hv
  have := gip_decode_varint_go_spec 4 4 v 0 0 [] rest len hv hd4 hd4 rfl (by norm_num)
    (by omega)
  simpa [gip_decode_varint, gip_encode_varint] using this

theorem gip_encode_varint_go_cons (f v : Nat) (hf : 0 < f) :
    ∃ y r, gip_encode_varint_go v f = y :: r := by
  match f with
  | 0 => omega
  | f + 1 =>
    simp only [gip_encode_varint_go]
    by_cases h : v / 128 = 0
    · exact ⟨_, _, by rw [if_pos h]⟩
    · exact ⟨_, _, by rw [if_neg h]⟩

theorem gip_decode_varint_go_padded_spec :
    ∀ (g f v i acc : Nat) (data rest : List Nat) (len : Nat),
      v < 2 ^ 28 →
      gip_varint_digits v ≤ g → gip_varint_digits v ≤ f →
      data.length = i → acc < 128 ^ i → i + gip_varint_digits v + 1 ≤ len →
      gip_decode_varint_go (data ++ markLast (gip_encode_varint_go v f) ++ 0 :: rest)
          len g i acc
        = (acc + v * 128 ^ i, i + gip_varint_digits v + 1) := by
  intro g
  induction g with
  | zero => intro f v i acc data rest len _ hg; have := gip_varint_digits_pos v; omega
  | succ g ih =>
    intro f v i acc data rest len hb hg hf hdata hacc hlen
    have hvpos := gip_varint_digits_pos v
    have hilen : i < len := by omega
    match f with
    | 0 => omega
    | f + 1 =>
      by_cases hv : v < 128
      · -- single (marked) byte, then the zero pad byte
        have hd0 : v / 128 = 0 := Nat.div_eq_of_lt hv
        have henc : markLast (gip_encode_varint_go v (f + 1)) = [v ||| 128] := by
          simp [gip_encode_varint_go, hd0, Nat.mod_eq_of_lt (by omega : v < 256),
            if_neg (by omega : ¬ 127 < v), markLast]
        rw [henc]
        simp only [gip_decode_varint_go, hilen, if_true]
        have hbyte : (data ++ [v ||| 128] ++ 0 :: rest)[i]? = some (v ||| 128) := by
          rw [← hdata, List.append_assoc, List.getElem?_append_right (le_refl _)]
          simp
        simp only [List.getD_eq_getElem?_getD, hbyte, Option.getD_some]
        have h256 : v < 256 := by omega
        rw [if_neg (by rw [byte_or128_and128 _ h256]; omega)]
        rw [byte_or128_and127 _ h256, Nat.mod_eq_of_lt hv]
        rw [lor_shift_add (7 * i) acc v (by rw [← pow128_eq]; exact hacc), ← pow128_eq]
        rw [gip_decode_varint_go_zero_byte g (data ++ [v ||| 128]) rest len (i + 1)
          (acc + v * 128 ^ i) (by simp [hdata])]
        rw [gip_varint_digits_small hv]
      · -- continuation byte, recurse on the marked remainder
        have hd : v / 128 ≠ 0 := by
          have : 1 ≤ v / 128 := (Nat.le_div_iff_mul_le (by norm_num)).mpr (by omega)
          omega
        have hdig := gip_varint_digits_large (by omega : 128 ≤ v) hb
        set b := (v % 256) ||| 128 with hbdef
        have hfpos : 0 < f := by
          by_contra hzero
          have hf0 : f = 0 := by omega
          rw [hf0] at hf
          rw [hdig] at hf
          have := gip_varint_digits_pos (v / 128)
          omega
        obtain ⟨y, r, hyr⟩ := gip_encode_varint_go_cons f (v / 128) hfpos
        have henc : markLast (gip_encode_varint_go v (f + 1))
            = b :: markLast (gip_encode_varint_go (v / 128) f) := by
          simp only [gip_encode_varint_go, hd, if_neg hd, if_pos (by omega : 127 < v)]
          rw [hyr]
          rfl
        rw [henc]
        simp only [gip_decode_varint_go, hilen, if_true]
        have hbyte : (data ++ (b :: markLast (gip_encode_varint_go (v / 128) f)) ++ 0 :: rest)[i]?
            = some b := by
          rw [← hdata, List.append_assoc, List.getElem?_append_right (le_refl _)]
          simp
        simp only [List.getD_eq_getElem?_getD, hbyte, Option.getD_some]
        have hmod : v % 256 < 256 := Nat.mod_lt _ (by norm_num)
        rw [if_neg (by rw [hbdef, byte_or128_and128 _ hmod]; omega)]
        have hand : b &&& 127 = v % 128 := by
          rw [hbdef, byte_or128_and127 _ hmod,
            Nat.mod_mod_of_dvd v (by norm_num : (128 : ℕ) ∣ 256)]
        have hacc2 : acc ||| ((b &&& 127) <<< (7 * i)) = acc + (v % 128) * 128 ^ i := by
          rw [hand, lor_shift_add (7 * i) acc (v % 128) (by rw [← pow128_eq]; exact hacc),
            ← pow128_eq]
        rw [hacc2]
        have hlist : data ++ (b :: markLast (gip_encode_varint_go (v / 128) f)) ++ 0 :: rest
            = (data ++ [b]) ++ markLast (gip_encode_varint_go (v / 128) f) ++ 0 :: rest := by
          simp
        rw [hlist]
        have hpow : (128 : ℕ) ^ (i + 1) = 128 ^ i * 128 := by ring
        have hacclt : acc + (v % 128) * 128 ^ i < 128 ^ (i + 1) := by
          have h127 : v % 128 ≤ 127 := by omega
          have h2 : (v % 128) * 128 ^ i ≤ 127 * 128 ^ i := Nat.mul_le_mul_right _ h127
          have hp : 1 ≤ (128 : ℕ) ^ i := Nat.one_le_pow _ _ (by norm_num)
          rw [hpow]
          omega
        have hdivb : v / 128 < 2 ^ 28 := by
          have := Nat.div_le_self v 128
          omega
        have hrec := ih f (v / 128) (i + 1) (acc + (v % 128) * 128 ^ i) (data ++ [b]) rest len
          hdivb (by omega) (by omega) (by simp [hdata]) hacclt (by omega)
        rw [hrec, Prod.mk.injEq]
        refine ⟨?_, by omega⟩
        have hsplit : v % 128 + 128 * (v / 128) = v := Nat.mod_add_div v 128
        rw [hpow]
        have hring : acc + (v % 128) * 128 ^ i + v / 128 * (128 ^ i * 128)
            = acc + (v % 128 + 128 * (v / 128)) * 128 ^ i := by ring
        rw [hring, hsplit]

theorem gip_decode_varint_padded (v : Nat) (rest : List Nat) (len : Nat)
    (hv : v < 2 ^ 28) (hlen : gip_varint_digits v + 1 ≤ len) :
    gip_decode_varint (markLast (gip_encode_varint v) ++ 0 :: rest) len
      = (v, gip_varint_digits v + 1) := by
  have hd4 : gip_varint_digits v ≤ 4 := gip_varint_digits_le4 hv
  have := gip_decode_varint_go_padded_spec 4 4 v 0 0 [] rest len hv hd4 hd4 rfl (by norm_num)
    (by omega)
  simpa [gip_decode_varint, gip_encode_varint] using this

/-! ### Header encoding characterisation -/

theorem writeAt_concat_replicate (pfx xs : List Nat) (m : Nat) (h : xs.length ≤ m) :
    writeAt (pfx ++ List.replicate m 0) pfx.length xs
      = pfx ++ xs ++ List.replicate (m - xs.length) 0 := by
  rw [writeAt_prefix_eq, writeAt_replicate_zero xs m 0 h]
  simp [List.append_assoc]

theorem orByteAt_concat_last (pfx xs tail : List Nat) (h : xs ≠ []) :
    orByteAt (pfx ++ xs ++ tail) (pfx.length + (xs.length - 1)) 128
      = pfx ++ markLast xs ++ tail := by
  have h1 : pfx ++ xs ++ tail = pfx ++ (xs ++ tail) := by simp
  rw [h1, orByteAt_append, orByteAt_last xs h]
  simp [List.append_assoc]

theorem gip_encode_varint_ne_nil {v : Nat} (h : v < 2 ^ 28) :
    gip_encode_varint v ≠ [] := by
  have hl := gip_encode_varint_length h
  have hp := gip_varint_digits_pos v
  intro hnil
  rw [hnil] at hl
  simp at hl
  omega

theorem gip_header_bytes_length (hdr : GipHeader)
    (hpl : hdr.packet_length < 2 ^ 28)
    (hco : hdr.options &&& GIP_OPT_CHUNK ≠ 0 →
      0 < hdr.chunk_offset ∧ hdr.chunk_offset < 2 ^ 28) :
    (gip_header_bytes hdr).length = gip_get_header_length hdr := by
  have hdlen := gip_encode_varint_length hpl
  simp only [gip_header_bytes, gip_get_header_length]
  by_cases hchunk : hdr.options &&& GIP_OPT_CHUNK = 0
  · have haval : gip_get_actual_header_length hdr
        = 3 + gip_varint_digits hdr.packet_length := by
      simp [gip_get_actual_header_length, hchunk]
    rw [if_pos hchunk]
    by_cases hpar : gip_get_actual_header_length hdr % 2 = 1
    · rw [if_pos hpar]
      simp only [List.length_append, List.length_cons, List.length_nil,
        markLast_length, hdlen, List.length_singleton]
      omega
    · rw [if_neg hpar]
      simp only [List.length_append, List.length_cons, List.length_nil, hdlen]
      omega
  · obtain ⟨hco1, hco2⟩ := hco hchunk
    have hclen := gip_encode_varint_length hco2
    have haval : gip_get_actual_header_length hdr
        = 3 + gip_varint_digits hdr.packet_length
          + gip_varint_digits hdr.chunk_offset := by
      simp only [gip_get_actual_header_length]
      rw [if_neg hchunk, if_neg (by omega : ¬ hdr.chunk_offset = 0)]
    rw [if_neg hchunk]
    by_cases hpar : gip_get_actual_header_length hdr % 2 = 1
    · rw [if_pos hpar]
      simp only [List.length_append, List.length_cons, List.length_nil,
        markLast_length, hdlen, hclen, List.length_singleton]
      omega
    · rw [if_neg hpar]
      simp only [List.length_append, List.length_cons, List.length_nil, hdlen, hclen]
      omega

theorem gip_encode_header_spec (hdr : GipHeader) (n : Nat)
    (hpl : hdr.packet_length < 2 ^ 28)
    (hco : hdr.options &&& GIP_OPT_CHUNK ≠ 0 →
      0 < hdr.chunk_offset ∧ hdr.chunk_offset < 2 ^ 28)
    (hn : gip_get_header_length hdr ≤ n) :
    gip_encode_header hdr (List.replicate n 0)
      = gip_header_bytes hdr ++ List.replicate (n - gip_get_header_length hdr) 0 := by
  have hdlen := gip_encode_varint_length hpl
  have hret := gip_encode_varint_ret_eq hpl
  have hdpos := gip_varint_digits_pos hdr.packet_length
  set d := gip_varint_digits hdr.packet_length with hd
  set pv := gip_encode_varint hdr.packet_length with hpv
  set fixed : List Nat := [hdr.command, hdr.options, hdr.sequence] with hfixed
  have hfixedlen : fixed.length = 3 := rfl
  simp only [gip_encode_header, gip_header_bytes, hret]
  by_cases hchunk : hdr.options &&& GIP_OPT_CHUNK = 0
  · -- no chunk-offset varint
    have ha : gip_get_actual_header_length hdr = 3 + d := by
      simp [gip_get_actual_header_length, hchunk]
    have hhl : gip_get_header_length hdr = 3 + d + (3 + d) % 2 := by
      simp [gip_get_header_length, ha]
    have hn3 : 3 + d ≤ n := by omega
    have e1 : writeAt (List.replicate n 0) 0 fixed
        = fixed ++ List.replicate (n - 3) 0 := by
      rw [writeAt_replicate_zero fixed n 0 (by rw [hfixedlen]; omega), hfixedlen]
    have e2 : writeAt (fixed ++ List.replicate (n - 3) 0) 3 pv
        = fixed ++ pv ++ List.replicate (n - 3 - d) 0 := by
      have := writeAt_concat_replicate fixed pv (n - 3) (by omega)
      rw [hfixedlen] at this
      rw [this, hdlen]
    rw [hchunk, if_pos rfl] at *
    simp only [ha, hfixed] at *
    by_cases hpar : (3 + d) % 2 = 1
    · -- padding byte
      rw [if_pos hpar]
      simp only [e1, e2]
      have e3 : orByteAt (fixed ++ pv ++ List.replicate (n - 3 - d) 0) (3 + d - 1) 128
          = fixed ++ markLast pv ++ List.replicate (n - 3 - d) 0 := by
        have := orByteAt_concat_last fixed pv (List.replicate (n - 3 - d) 0)
          (gip_encode_varint_ne_nil hpl)
        rw [hfixedlen, hdlen] at this
        rw [show 3 + d - 1 = 3 + (d - 1) from by omega]
        exact this
      rw [e3]
      have e4 : writeAt (fixed ++ markLast pv ++ List.replicate (n - 3 - d) 0) (3 + d) [0]
          = fixed ++ markLast pv ++ [0] ++ List.replicate (n - 3 - d - 1) 0 := by
        have := writeAt_concat_replicate (fixed ++ markLast pv) [0] (n - 3 - d)
          (by simp; omega)
        simp only [List.length_append, hfixedlen, markLast_length, hdlen] at this
        simpa [List.append_assoc] using this
      rw [e4, hhl, hpar]
      have hcnt : n - 3 - d - 1 = n - (3 + d + 1) := by omega
      rw [hcnt]
      simp [List.append_assoc, show fixed = [hdr.command, hdr.options, hdr.sequence] from rfl,
        show pv = gip_encode_varint hdr.packet_length from rfl]
    · rw [if_neg hpar]
      simp only [e1, e2, hhl]
      have hz : (3 + d) % 2 = 0 := by omega
      rw [hz]
      have hcnt : n - 3 - d = n - (3 + d + 0) := by omega
      rw [hcnt]
      simp [List.append_assoc, show fixed = [hdr.command, hdr.options, hdr.sequence] from rfl,
        show pv = gip_encode_varint hdr.packet_length from rfl]
  · -- chunk-offset varint present
    obtain ⟨hco1, hco2⟩ := hco hchunk
    have hclen := gip_encode_varint_length hco2
    have hcpos := gip_varint_digits_pos hdr.chunk_offset
    set cb := gip_varint_digits hdr.chunk_offset with hcb
    set cv := gip_encode_varint hdr.chunk_offset with hcv
    have ha : gip_get_actual_header_length hdr = 3 + d + cb := by
      simp [gip_get_actual_header_length, hchunk, if_neg (by omega : ¬ hdr.chunk_offset = 0)]
    have hhl : gip_get_header_length hdr = 3 + d + cb + (3 + d + cb) % 2 := by
      simp [gip_get_header_length, ha]
    have hn3 : 3 + d + cb ≤ n := by omega
    have e1 : writeAt (List.replicate n 0) 0 fixed
        = fixed ++ List.replicate (n - 3) 0 := by
      rw [writeAt_replicate_zero fixed n 0 (by rw [hfixedlen]; omega), hfixedlen]
    have e2 : writeAt (fixed ++ List.replicate (n - 3) 0) 3 pv
        = fixed ++ pv ++ List.replicate (n - 3 - d) 0 := by
      have := writeAt_concat_replicate fixed pv (n - 3) (by omega)
      rw [hfixedlen] at this
      rw [this, hdlen]
    simp only [if_neg hchunk]
    simp only [ha] at *
    by_cases hpar : (3 + d + cb) % 2 = 1
    · rw [if_pos hpar]
      simp only [e1, e2]
      have e3 : orByteAt (fixed ++ pv ++ List.replicate (n - 3 - d) 0) (3 + d - 1) 128
          = fixed ++ markLast pv ++ List.replicate (n - 3 - d) 0 := by
        have := orByteAt_concat_last fixed pv (List.replicate (n - 3 - d) 0)
          (gip_encode_varint_ne_nil hpl)
        rw [hfixedlen, hdlen] at this
        rw [show 3 + d - 1 = 3 + (d - 1) from by omega]
        exact this
      rw [e3]
      have e4 : writeAt (fixed ++ markLast pv ++ List.replicate (n - 3 - d) 0) (3 + d) [0]
          = fixed ++ markLast pv ++ [0] ++ List.replicate (n - 3 - d - 1) 0 := by
        have := writeAt_concat_replicate (fixed ++ markLast pv) [0] (n - 3 - d)
          (by simp; omega)
        simp only [List.length_append, hfixedlen, markLast_length, hdlen] at this
        simpa [List.append_assoc] using this
      rw [e4]
      have e5 : writeAt (fixed ++ markLast pv ++ [0] ++ List.replicate (n - 3 - d - 1) 0)
          (3 + d + 1) cv
          = fixed ++ markLast pv ++ [0] ++ cv ++ List.replicate (n - 3 - d - 1 - cb) 0 := by
        have := writeAt_concat_replicate (fixed ++ markLast pv ++ [0]) cv (n - 3 - d - 1)
          (by rw [hclen]; omega)
        simp only [List.length_append, hfixedlen, markLast_length, hdlen,
          List.length_singleton, hclen] at this
        have hpos : 3 + d + 1 = 3 + d + 1 := rfl
        simpa [List.append_assoc] using this
      rw [e5, hhl, hpar]
      have hcnt : n - 3 - d - 1 - cb = n - (3 + d + cb + 1) := by omega
      rw [hcnt]
      simp [List.append_assoc, show fixed = [hdr.command, hdr.options, hdr.sequence] from rfl,
        show pv = gip_encode_varint hdr.packet_length from rfl,
        show cv = gip_encode_varint hdr.chunk_offset from rfl]
    · rw [if_neg hpar]
      simp only [e1, e2]
      have e5 : writeAt (fixed ++ pv ++ List.replicate (n - 3 - d) 0) (3 + d) cv
          = fixed ++ pv ++ cv ++ List.replicate (n - 3 - d - cb) 0 := by
        have := writeAt_concat_replicate (fixed ++ pv) cv (n - 3 - d) (by rw [hclen]; omega)
        simp only [List.length_append, hfixedlen, hdlen, hclen] at this
        simpa [List.append_assoc] using this
      rw [e5, hhl]
      have hz : (3 + d + cb) % 2 = 0 := by omega
      rw [hz]
      have hcnt : n - 3 - d - cb = n - (3 + d + cb + 0) := by omega
      rw [hcnt]
      simp [List.append_assoc, show fixed = [hdr.command, hdr.options, hdr.sequence] from rfl,
        show pv = gip_encode_varint hdr.packet_length from rfl,
        show cv = gip_encode_varint hdr.chunk_offset from rfl]

theorem gip_wire_packet_spec (hdr : GipHeader) (payload : List Nat)
    (hpl : hdr.packet_length < 2 ^ 28)
    (hco : hdr.options &&& GIP_OPT_CHUNK ≠ 0 →
      0 < hdr.chunk_offset ∧ hdr.chunk_offset < 2 ^ 28)
    (hlen : payload.length = hdr.packet_length) :
    gip_wire_packet hdr payload = gip_header_bytes hdr ++ payload := by
  have hhb := gip_header_bytes_length hdr hpl hco
  simp only [gip_wire_packet]
  rw [gip_encode_header_spec hdr _ hpl hco (by omega)]
  have hcount : gip_get_header_length hdr + hdr.packet_length + 8
      - gip_get_header_length hdr = hdr.packet_length + 8 := by omega
  rw [hcount]
  have hw : writeAt (gip_header_bytes hdr ++ List.replicate (hdr.packet_length + 8) 0)
      (gip_get_header_length hdr) payload
      = gip_header_bytes hdr ++ payload
        ++ List.replicate (hdr.packet_length + 8 - payload.length) 0 := by
    have := writeAt_concat_replicate (gip_header_bytes hdr) payload
      (hdr.packet_length + 8) (by omega)
    rw [hhb] at this
    exact this
  rw [hw]
  rw [List.append_assoc]
  rw [List.take_append_eq_append_take]
  rw [List.take_of_length_le (by rw [hhb]; omega), hhb]
  have hrest : gip_get_header_length hdr + hdr.packet_length - gip_get_header_length hdr
      = hdr.packet_length := by omega
  rw [hrest]
  rw [List.take_append_eq_append_take, List.take_of_length_le (by omega)]
  have : hdr.packet_length - payload.length = 0 := by omega
  rw [this]
  simp

theorem gip_decode_header_bytes (hdr : GipHeader) (tail : List Nat) (len : Nat)
    (hpl : hdr.packet_length < 2 ^ 28)
    (hco : hdr.options &&& GIP_OPT_CHUNK ≠ 0 →
      0 < hdr.chunk_offset ∧ hdr.chunk_offset < 2 ^ 28)
    (hlen : gip_get_header_length hdr ≤ len) :
    gip_decode_header (gip_header_bytes hdr ++ tail) len
      = (⟨hdr.command, hdr.options, hdr.sequence, hdr.packet_length,
          if hdr.options &&& GIP_OPT_CHUNK = 0 then 0 else hdr.chunk_offset⟩,
         gip_get_header_length hdr) := by
  have hdpos := gip_varint_digits_pos hdr.packet_length
  set d := gip_varint_digits hdr.packet_length with hd
  by_cases hchunk : hdr.options &&& GIP_OPT_CHUNK = 0
  · have ha : gip_get_actual_header_length hdr = 3 + d := by
      simp [gip_get_actual_header_length, hchunk]
    have hhl : gip_get_header_length hdr = 3 + d + (3 + d) % 2 := by
      simp [gip_get_header_length, ha]
    by_cases hpar : gip_get_actual_header_length hdr % 2 = 1
    · -- padded packet-length varint
      have hbytes : gip_header_bytes hdr ++ tail
          = hdr.command :: hdr.options :: hdr.sequence ::
            (markLast (gip_encode_varint hdr.packet_length) ++ 0 :: tail) := by
        simp [gip_header_bytes, hpar, hchunk, List.append_assoc]
      rw [hbytes]
      simp only [gip_decode_header]
      have hdec := gip_decode_varint_padded hdr.packet_length tail (len - 3) hpl
        (by rw [ha] at hpar; omega)
      simp only [List.getD_cons_zero, List.getD_cons_succ, List.drop_succ_cons,
        List.drop_zero, hdec, hchunk, if_pos rfl]
      rw [ha] at hpar
      rw [hhl]
      have hone : (3 + d) % 2 = 1 := hpar
      rw [hone]
      simp
      omega
    · have hbytes : gip_header_bytes hdr ++ tail
          = hdr.command :: hdr.options :: hdr.sequence ::
            (gip_encode_varint hdr.packet_length ++ tail) := by
        simp [gip_header_bytes, hpar, hchunk, List.append_assoc]
      rw [hbytes]
      simp only [gip_decode_header]
      have hdec := gip_decode_varint_enc hdr.packet_length tail (len - 3) hpl (by omega)
      simp only [List.getD_cons_zero, List.getD_cons_succ, List.drop_succ_cons,
        List.drop_zero, hdec, hchunk, if_pos rfl]
      rw [ha] at hpar
      rw [hhl]
      have hzero : (3 + d) % 2 = 0 := by omega
      rw [hzero]
      simp
  · obtain ⟨hco1, hco2⟩ := hco hchunk
    have hcpos := gip_varint_digits_pos hdr.chunk_offset
    set cb := gip_varint_digits hdr.chunk_offset with hcb
    have ha : gip_get_actual_header_length hdr = 3 + d + cb := by
      simp only [gip_get_actual_header_length]
      rw [if_neg hchunk, if_neg (by omega : ¬ hdr.chunk_offset = 0)]
    have hhl : gip_get_header_length hdr = 3 + d + cb + (3 + d + cb) % 2 := by
      simp [gip_get_header_length, ha]
    by_cases hpar : gip_get_actual_header_length hdr % 2 = 1
    · have hbytes : gip_header_bytes hdr ++ tail
          = hdr.command :: hdr.options :: hdr.sequence ::
            (markLast (gip_encode_varint hdr.packet_length)
              ++ 0 :: (gip_encode_varint hdr.chunk_offset ++ tail)) := by
        simp [gip_header_bytes, hpar, hchunk, List.append_assoc]
      rw [hbytes]
      simp only [gip_decode_header]
      have hdec := gip_decode_varint_padded hdr.packet_length
        (gip_encode_varint hdr.chunk_offset ++ tail) (len - 3) hpl
        (by rw [ha] at hpar; omega)
      simp only [List.getD_cons_zero, List.getD_cons_succ, List.drop_succ_cons,
        List.drop_zero, hdec, if_neg hchunk]
      have hdrop : (markLast (gip_encode_varint hdr.packet_length)
          ++ 0 :: (gip_encode_varint hdr.chunk_offset ++ tail)).drop (d + 1)
          = gip_encode_varint hdr.chunk_offset ++ tail := by
        have hml : (markLast (gip_encode_varint hdr.packet_length) ++ [0]).length
            = d + 1 := by
          simp [markLast_length, gip_encode_varint_length hpl]
        have : markLast (gip_encode_varint hdr.packet_length)
            ++ 0 :: (gip_encode_varint hdr.chunk_offset ++ tail)
            = (markLast (gip_encode_varint hdr.packet_length) ++ [0])
              ++ (gip_encode_varint hdr.chunk_offset ++ tail) := by
          simp [List.append_assoc]
        rw [this, List.drop_left' hml]
      have hdrop3 : ∀ a b c : Nat, ∀ l : List Nat, (a :: b :: c :: l).drop (3 + (d + 1))
          = l.drop (d + 1) := by
        intro a b c l
        have : 3 + (d + 1) = (d + 1) + 3 := by omega
        rw [this]
        simp [List.drop_succ_cons]
      rw [hdrop3, hdrop]
      have hdec2 := gip_decode_varint_enc hdr.chunk_offset tail (len - (3 + (d + 1))) hco2
        (by rw [ha] at hpar; omega)
      rw [hdec2]
      rw [ha] at hpar
      rw [hhl, hpar]
      simp only [Prod.mk.injEq]
      refine ⟨by simp, by omega⟩
    · have hbytes : gip_header_bytes hdr ++ tail
          = hdr.command :: hdr.options :: hdr.sequence ::
            (gip_encode_varint hdr.packet_length
              ++ (gip_encode_varint hdr.chunk_offset ++ tail)) := by
        simp [gip_header_bytes, hpar, hchunk, List.append_assoc]
      rw [hbytes]
      simp only [gip_decode_header]
      have hdec := gip_decode_varint_enc hdr.packet_length
        (gip_encode_varint hdr.chunk_offset ++ tail) (len - 3) hpl (by omega)
      simp only [List.getD_cons_zero, List.getD_cons_succ, List.drop_succ_cons,
        List.drop_zero, hdec, if_neg hchunk]
      have hdrop : (gip_encode_varint hdr.packet_length
          ++ (gip_encode_varint hdr.chunk_offset ++ tail)).drop d
          = gip_encode_varint hdr.chunk_offset ++ tail :=
        List.drop_left' (gip_encode_varint_length hpl)
      have hdrop3 : ∀ a b c : Nat, ∀ l : List Nat, (a :: b :: c :: l).drop (3 + d)
          = l.drop d := by
        intro a b c l
        have : 3 + d = d + 3 := by omega
        rw [this]
        simp [List.drop_succ_cons]
      rw [hdrop3, hdrop]
      have hdec2 := gip_decode_varint_enc hdr.chunk_offset tail (len - (3 + d)) hco2
        (by omega)
      rw [hdec2]
      rw [hhl]
      have hz : (3 + d + cb) % 2 = 0 := by rw [ha] at hpar; omega
      rw [hz]
      simp only [Prod.mk.injEq]
      refine ⟨by simp, by omega⟩

theorem gip_get_header_length_even (hdr : GipHeader) :
    Even (gip_get_header_length hdr) := by
  rw [Nat.even_iff]
  simp only [gip_get_header_length]
  omega

theorem gip_wire_packet_length (hdr : GipHeader) (payload : List Nat)
    (hpl : hdr.packet_length < 2 ^ 28)
    (hco : hdr.options &&& GIP_OPT_CHUNK ≠ 0 →
      0 < hdr.chunk_offset ∧ hdr.chunk_offset < 2 ^ 28)
    (hlen : payload.length = hdr.packet_length) :
    (gip_wire_packet hdr payload).length
      = gip_get_header_length hdr + hdr.packet_length := by
  rw [gip_wire_packet_spec hdr payload hpl hco hlen]
  simp [gip_header_bytes_length hdr hpl hco, hlen]

/-! ## Claim theorems -/

/-- C1 (amended).  Codec round-trip: for every GIP header whose
packet-length and chunk-offset fit in four varint bytes (both `< 2 ^ 28`)
and whose chunk-offset is non-zero whenever the CHUNK flag is set, and for
every payload of packet-length bytes, decoding the bytes produced by
`gip_encode_header` followed by the payload yields the same command,
options, sequence, packet-length and — when CHUNK is set — chunk-offset;
the count of consumed bytes is the encoded header length, the payload is
recovered intact, and the encoded header length is even.  (The original
claim, quantified over *every* header, fails when the CHUNK flag is set
with chunk-offset 0: the encoder then writes a chunk-offset varint byte
into the payload area, see `C1_counterexample`.) -/
theorem C1_codec_roundtrip (hdr : GipHeader) (payload : List Nat)
    (hlen : payload.length = hdr.packet_length)
    (hpl : hdr.packet_length < 2 ^ 28)
    (hco : hdr.options &&& GIP_OPT_CHUNK ≠ 0 →
      0 < hdr.chunk_offset ∧ hdr.chunk_offset < 2 ^ 28) :
    gip_decode_header (gip_wire_packet hdr payload) (gip_wire_packet hdr payload).length
      = (⟨hdr.command, hdr.options, hdr.sequence, hdr.packet_length,
          if hdr.options &&& GIP_OPT_CHUNK = 0 then 0 else hdr.chunk_offset⟩,
         gip_get_header_length hdr)
    ∧ (gip_wire_packet hdr payload).drop (gip_get_header_length hdr) = payload
    ∧ Even (gip_get_header_length hdr) := by
  have hwire := gip_wire_packet_spec hdr payload hpl hco hlen
  have hhb := gip_header_bytes_length hdr hpl hco
  have hwl := gip_wire_packet_length hdr payload hpl hco hlen
  refine ⟨?_, ?_, gip_get_header_length_even hdr⟩
  · rw [hwire] at hwl ⊢
    exact gip_decode_header_bytes hdr payload _ hpl hco (by omega)
  · rw [hwire]
    exact List.drop_left' hhb

/-- C1 witness: the concrete Power-On packet of §8 S1 (client 0,
`{cmd 0x05, opt 0x20, seq 7, len 1}` with payload `[0x00]`) satisfies the
hypotheses and round-trips. -/
theorem C1_codec_roundtrip_witness :
    (([0] : List Nat).length = (⟨5, 32, 7, 1, 0⟩ : GipHeader).packet_length
      ∧ (⟨5, 32, 7, 1, 0⟩ : GipHeader).packet_length < 2 ^ 28
      ∧ ((⟨5, 32, 7, 1, 0⟩ : GipHeader).options &&& GIP_OPT_CHUNK ≠ 0 →
          0 < (⟨5, 32, 7, 1, 0⟩ : GipHeader).chunk_offset
          ∧ (⟨5, 32, 7, 1, 0⟩ : GipHeader).chunk_offset < 2 ^ 28))
    ∧ (gip_decode_header (gip_wire_packet ⟨5, 32, 7, 1, 0⟩ [0])
          (gip_wire_packet ⟨5, 32, 7, 1, 0⟩ [0]).length
        = (⟨5, 32, 7, 1, 0⟩, gip_get_header_length ⟨5, 32, 7, 1, 0⟩)
      ∧ (gip_wire_packet ⟨5, 32, 7, 1, 0⟩ [0]).drop
          (gip_get_header_length ⟨5, 32, 7, 1, 0⟩) = [0]
      ∧ Even (gip_get_header_length ⟨5, 32, 7, 1, 0⟩)) := by
  refine ⟨by decide, ?_⟩
  have h := C1_codec_roundtrip ⟨5, 32, 7, 1, 0⟩ [0] (by decide) (by decide) (by decide)
  simpa using h

/-- C1 counterexample: a CHUNK-flagged header with chunk-offset 0 does not
round-trip — the encoder writes the chunk-offset varint into the byte the
payload then overwrites, so the decoder misreads the first payload byte
(7) as the chunk-offset and consumes 5 bytes instead of the 4-byte header
length. -/
theorem C1_counterexample :
    (gip_decode_header (gip_wire_packet ⟨5, 128, 1, 1, 0⟩ [7])
        (gip_wire_packet ⟨5, 128, 1, 1, 0⟩ [7]).length).1.chunk_offset = 7
    ∧ (gip_decode_header (gip_wire_packet ⟨5, 128, 1, 1, 0⟩ [7])
        (gip_wire_packet ⟨5, 128, 1, 1, 0⟩ [7]).length).2
      ≠ gip_get_header_length ⟨5, 128, 1, 1, 0⟩
    ∧ ([7] : List Nat).length = (⟨5, 128, 1, 1, 0⟩ : GipHeader).packet_length := by
  decide

theorem gip_decode_varint_go_consumed_bounds :
    ∀ (g : Nat) (data : List Nat) (len i acc : Nat),
      i + 1 ≤ (gip_decode_varint_go data len g i acc).2
      ∧ (gip_decode_varint_go data len g i acc).2 ≤ i + g + 1 := by
  intro g
  induction g with
  | zero => intro data len i acc; simp [gip_decode_varint_go]
  | succ g ih =>
    intro data len i acc
    simp only [gip_decode_varint_go]
    by_cases h : i < len
    · simp only [h, if_true]
      by_cases hbit : data[i]?.getD 0 &&& 128 = 0
      · simp [hbit]
      · simp only [List.getD_eq_getElem?_getD, hbit, if_false]
        have := ih data len (i + 1) (acc ||| ((data[i]?.getD 0 &&& 127) <<< (7 * i)))
        omega
    · simp [h]

theorem gip_decode_header_consumed_bounds (data : List Nat) (len : Nat) :
    4 ≤ (gip_decode_header data len).2 ∧ (gip_decode_header data len).2 ≤ 13 := by
  have h1 := gip_decode_varint_go_consumed_bounds 4 (data.drop 3) (len - 3) 0 0
  have h2 := gip_decode_varint_go_consumed_bounds 4
    (data.drop (3 + (gip_decode_varint_go (data.drop 3) (len - 3) 4 0 0).2))
    (len - (3 + (gip_decode_varint_go (data.drop 3) (len - 3) 4 0 0).2)) 0 0
  simp only [gip_decode_header, gip_decode_varint]
  split_ifs with hc
  · simp only
    omega
  · simp only
    omega

/-- C2 (amended).  Decoder error contract: `gip_decode_header` returns the
header struct and the count of bytes consumed (always between 4 and 13),
and `gip_process_buffer` fails with the malformed/short error `-EINVAL` —
without touching any client state or dispatching anything — whenever the
remaining buffer is shorter than the decoded header length plus the
declared packet-length (which covers buffers shorter than the declared
header, since a truncated varint makes the consumed count exceed the
buffer).  (The original claim also required a *failure* when a varint
spans more than 4 bytes; the code does not fail there — the decoder
silently consumes five bytes and keeps the low 28 bits, see
`C2_counterexample`.) -/
theorem C2_decoder_contract :
    (∀ (data : List Nat) (len : Nat),
      4 ≤ (gip_decode_header data len).2 ∧ (gip_decode_header data len).2 ≤ 13)
    ∧ (∀ (bus : GipBusState) (data : List Nat) (len : Nat),
        GIP_HDR_MIN_LENGTH < len →
        len < (gip_decode_header data len).2 + (gip_decode_header data len).1.packet_length →
        gip_process_buffer bus data len = (-EINVAL, bus, [])) := by
  refine ⟨gip_decode_header_consumed_bounds, ?_⟩
  intro bus data len hmin hshort
  simp only [gip_process_buffer, gip_process_buffer_go]
  rw [if_pos hmin, if_pos hshort]

/-- C2 witness: a one-byte buffer truncated below its declared
packet-length is rejected with `-EINVAL`. -/
theorem C2_decoder_contract_witness :
    (4 ≤ (gip_decode_header [2, 32, 9, 40] 4).2
      ∧ (gip_decode_header [2, 32, 9, 40] 4).2 ≤ 13)
    ∧ (GIP_HDR_MIN_LENGTH < 4
      ∧ 4 < (gip_decode_header [2, 32, 9, 40] 4).2
          + (gip_decode_header [2, 32, 9, 40] 4).1.packet_length
      ∧ gip_process_buffer gip_bus_init [2, 32, 9, 40] 4 = (-EINVAL, gip_bus_init, [])) := by
  refine ⟨C2_decoder_contract.1 [2, 32, 9, 40] 4, by decide, by decide, ?_⟩
  exact C2_decoder_contract.2 gip_bus_init [2, 32, 9, 40] 4 (by decide) (by decide)

/-- C2 counterexample: a packet-length varint spanning five bytes (every
one of the four varint bytes has its continuation bit set) is *not*
rejected: the whole buffer is processed successfully, contradicting the
claimed `MalformedHeader` failure on varints longer than four bytes. -/
theorem C2_counterexample :
    (gip_process_buffer gip_bus_init [0, 0, 1, 128, 128, 128, 128, 0] 8).1 = 0
    ∧ (gip_decode_header [0, 0, 1, 128, 128, 128, 128, 0] 8).2 = 8 := by
  decide

/-- C4.  Chunk receive error contract: a data chunk whose
`chunk_offset + packet_length` exceeds the declared total of the allocated
chunk buffer makes `gip_process_pkt` fail with `-EINVAL` (the
`ChunkOverflow` kind) while the client state — including the chunk buffer
contents — is returned unchanged, so any subsequent packet is processed
exactly as if the overflowing chunk had never arrived; and a zero-length
completion chunk arriving while no chunk buffer is allocated is ignored:
processing returns success, the state is unchanged, and nothing is
dispatched. -/
theorem C4_chunk_receive_errors :
    (∀ (st : GipClientRx) (buf : GipChunkBuffer) (hdr : GipHeader) (data : List Nat),
      st.chunkBuf = some buf →
      hdr.options &&& GIP_OPT_CHUNK ≠ 0 →
      hdr.options &&& GIP_OPT_CHUNK_START = 0 →
      buf.length < hdr.chunk_offset + hdr.packet_length →
      (gip_process_pkt st hdr data).1 = -EINVAL
      ∧ (gip_process_pkt st hdr data).2.1 = st
      ∧ dispatchedPayloads (gip_process_pkt st hdr data).2.2 = [])
    ∧ (∀ (st : GipClientRx) (hdr : GipHeader) (data : List Nat),
      st.chunkBuf = none →
      hdr.options &&& GIP_OPT_CHUNK ≠ 0 →
      hdr.options &&& GIP_OPT_CHUNK_START = 0 →
      hdr.packet_length = 0 →
      (gip_process_pkt st hdr data).1 = 0
      ∧ (gip_process_pkt st hdr data).2.1 = st
      ∧ dispatchedPayloads (gip_process_pkt st hdr data).2.2 = []) := by
  constructor
  · intro st buf hdr data hbuf hchunk hcs hover
    by_cases hack : hdr.options &&& GIP_OPT_ACKNOWLEDGE = 0
    · simp [gip_process_pkt, gip_process_pkt_rest, gip_process_pkt_chunked,
        hbuf, hcs, hchunk, hover, hack, dispatchedPayloads, gip_acknowledge_pkt]
    · simp [gip_process_pkt, gip_process_pkt_rest, gip_process_pkt_chunked,
        hbuf, hcs, hchunk, hover, hack, dispatchedPayloads, gip_acknowledge_pkt]
  · intro st hdr data hbuf hchunk hcs hlen
    by_cases hack : hdr.options &&& GIP_OPT_ACKNOWLEDGE = 0
    · simp [gip_process_pkt, gip_process_pkt_rest, gip_process_pkt_chunked,
        hbuf, hcs, hchunk, hlen, hack, dispatchedPayloads, gip_acknowledge_pkt]
    · simp [gip_process_pkt, gip_process_pkt_rest, gip_process_pkt_chunked,
        hbuf, hcs, hchunk, hlen, hack, dispatchedPayloads, gip_acknowledge_pkt]

/-- C4 witness: an overflowing chunk (offset 90 + length 58 > total 100)
fails with `-EINVAL` leaving the buffer untouched, and a spurious
zero-length completion with no buffer allocated succeeds without
dispatching. -/
theorem C4_chunk_receive_errors_witness :
    ((⟨some ⟨100, List.replicate 100 0⟩⟩ : GipClientRx).chunkBuf
        = some ⟨100, List.replicate 100 0⟩
      ∧ (⟨4, 128, 1, 58, 90⟩ : GipHeader).options &&& GIP_OPT_CHUNK ≠ 0
      ∧ (⟨4, 128, 1, 58, 90⟩ : GipHeader).options &&& GIP_OPT_CHUNK_START = 0
      ∧ (100 : Nat) < 90 + 58
      ∧ (gip_process_pkt ⟨some ⟨100, List.replicate 100 0⟩⟩ ⟨4, 128, 1, 58, 90⟩
          (List.replicate 58 1)).1 = -EINVAL
      ∧ (gip_process_pkt ⟨some ⟨100, List.replicate 100 0⟩⟩ ⟨4, 128, 1, 58, 90⟩
          (List.replicate 58 1)).2.1 = ⟨some ⟨100, List.replicate 100 0⟩⟩)
    ∧ ((gip_process_pkt ⟨none⟩ ⟨4, 128, 1, 0, 100⟩ []).1 = 0
      ∧ (gip_process_pkt ⟨none⟩ ⟨4, 128, 1, 0, 100⟩ []).2.1 = ⟨none⟩
      ∧ dispatchedPayloads (gip_process_pkt ⟨none⟩ ⟨4, 128, 1, 0, 100⟩ []).2.2 = []) := by
  have h1 := C4_chunk_receive_errors.1 ⟨some ⟨100, List.replicate 100 0⟩⟩
    ⟨100, List.replicate 100 0⟩ ⟨4, 128, 1, 58, 90⟩ (List.replicate 58 1)
    rfl (by decide) (by decide) (by decide)
  have h2 := C4_chunk_receive_errors.2 ⟨none⟩ ⟨4, 128, 1, 0, 100⟩ []
    rfl (by decide) (by decide) rfl
  exact ⟨⟨rfl, by decide, by decide, by decide, h1.1, h1.2.1⟩, h2.1, h2.2.1, h2.2.2⟩

/-- C9 (implicit).  Repeated Announce: once the hardware identity is
recorded as non-zero (not all of vendor, product, firmware-derived
version are zero), handling a further well-formed (28-byte) Announce
packet leaves the identity unchanged, and every well-formed Announce —
first or repeated — still triggers the Identify request. -/
theorem C9_announce_identity_stable :
    (∀ (hw : GipHardware) (data : List Nat),
      ¬(hw.vendor = 0 ∧ hw.product = 0 ∧ hw.version = 0) →
      gip_handle_pkt_announce hw data 28 = (0, hw, true))
    ∧ (∀ (hw : GipHardware) (data : List Nat),
      (gip_handle_pkt_announce hw data 28).2.2 = true) := by
  constructor
  · intro hw data h
    simp [gip_handle_pkt_announce, h]
  · intro hw data
    by_cases h : hw.vendor = 0 ∧ hw.product = 0 ∧ hw.version = 0
    · simp [gip_handle_pkt_announce, h]
    · simp [gip_handle_pkt_announce, h]

/-- C9 witness: a client already identified as vendor 0x045e keeps its
identity across a second Announce and still requests identification. -/
theorem C9_announce_identity_stable_witness :
    (¬((⟨0x045e, 0x02d1, 0x0503⟩ : GipHardware).vendor = 0
        ∧ (⟨0x045e, 0x02d1, 0x0503⟩ : GipHardware).product = 0
        ∧ (⟨0x045e, 0x02d1, 0x0503⟩ : GipHardware).version = 0)
      ∧ gip_handle_pkt_announce ⟨0x045e, 0x02d1, 0x0503⟩ (List.replicate 28 7) 28
        = (0, ⟨0x045e, 0x02d1, 0x0503⟩, true))
    ∧ (gip_handle_pkt_announce ⟨0, 0, 0⟩ (List.replicate 28 7) 28).2.2 = true := by
  exact ⟨⟨by decide, C9_announce_identity_stable.1 ⟨0x045e, 0x02d1, 0x0503⟩
    (List.replicate 28 7) (by decide)⟩,
    C9_announce_identity_stable.2 ⟨0, 0, 0⟩ (List.replicate 28 7)⟩

/-- C10 (implicit).  Missing `set_encryption_key` transport op:
`gip_set_encryption_key` returns success (0) without installing any key
when the adapter's ops table provides no `set_encryption_key` operation,
so authentication completion succeeds on transports without link
encryption instead of failing with `Unsupported`. -/
theorem C10_missing_encryption_op (ops : GipAdapterOps) (key : List Nat)
    (h : ops.set_encryption_key = none) :
    gip_set_encryption_key ops key = (0, []) := by
  simp [gip_set_encryption_key, h]

/-- C10 witness: the wired transport's ops table (no
`set_encryption_key`) yields success and no installed key. -/
theorem C10_missing_encryption_op_witness :
    (GipAdapterOps.mk none).set_encryption_key = none
    ∧ gip_set_encryption_key (GipAdapterOps.mk none) (List.replicate 16 0xab) = (0, []) :=
  ⟨rfl, C10_missing_encryption_op (GipAdapterOps.mk none) (List.replicate 16 0xab) rfl⟩

/-- C6 (code bug).  The v1 pre-master-secret step uses
`get_random_bytes(pms, sizeof(pms))` and
`gip_auth_compute_prf(…, pms, sizeof(pms), …)` where `pms` is a `u8 *`,
so only `sizeof(u8 *) = 8` bytes are randomised and the PRF is keyed by 8
bytes — not the 48-byte `GIP_AUTH_SECRET_LEN` the RSA encryption (and the
spec) use; consequently the master secret is completely independent of
the 40 uninitialised bytes that are nevertheless RSA-encrypted and sent
to the client. -/
theorem C6_premaster_secret_size_bug :
    (gip_auth_compute_master_secret_sizes.random_bytes_requested = 8
      ∧ gip_auth_compute_master_secret_sizes.prf_key_len = 8
      ∧ gip_auth_compute_master_secret_sizes.rsa_plaintext_len = 48
      ∧ GIP_AUTH_SECRET_LEN = 48
      ∧ gip_auth_compute_master_secret_sizes.random_bytes_requested ≠ GIP_AUTH_SECRET_LEN
      ∧ gip_auth_compute_master_secret_sizes.prf_key_len ≠ GIP_AUTH_SECRET_LEN)
    ∧ (∀ (hmac : List Nat → List Nat → List Nat) (auth : GipAuth)
        (rb u u' : List Nat), sizeof_u8_ptr ≤ rb.length →
        gip_auth_compute_master_secret_v1 hmac auth rb u
          = gip_auth_compute_master_secret_v1 hmac auth rb u') := by
  refine ⟨by decide, ?_⟩
  intro hmac auth rb u u' hrb
  simp only [gip_auth_compute_master_secret_v1]
  have htake : ∀ w : List Nat,
      ((rb.take sizeof_u8_ptr ++ w.take (GIP_AUTH_SECRET_LEN - sizeof_u8_ptr)).take
        sizeof_u8_ptr) = rb.take sizeof_u8_ptr := by
    intro w
    rw [List.take_append_eq_append_take]
    have hlen : (rb.take sizeof_u8_ptr).length = sizeof_u8_ptr := by
      have h8 : sizeof_u8_ptr = 8 := rfl
      simp only [List.length_take]
      omega
    rw [List.take_of_length_le (by omega), hlen]
    simp
  rw [htake u, htake u']

/-- C6 witness: with a constant HMAC, a concrete 8-byte entropy input and
two different uninitialised tails, the derived master secret coincides. -/
theorem C6_premaster_secret_size_bug_witness :
    (sizeof_u8_ptr ≤ ([1, 2, 3, 4, 5, 6, 7, 8] : List Nat).length)
    ∧ gip_auth_compute_master_secret_v1 (fun _ _ => List.replicate 32 0)
        ⟨[], [], [], []⟩ [1, 2, 3, 4, 5, 6, 7, 8] (List.replicate 40 0xaa)
      = gip_auth_compute_master_secret_v1 (fun _ _ => List.replicate 32 0)
        ⟨[], [], [], []⟩ [1, 2, 3, 4, 5, 6, 7, 8] (List.replicate 40 0xbb) :=
  ⟨by decide, C6_premaster_secret_size_bug.2 (fun _ _ => List.replicate 32 0)
    ⟨[], [], [], []⟩ [1, 2, 3, 4, 5, 6, 7, 8] (List.replicate 40 0xaa)
    (List.replicate 40 0xbb) (by decide)⟩

/-! ### Byte 2 of an encoded packet is the sequence number -/

theorem getD_writeAt_lt :
    ∀ (buf xs : List Nat) (p j : Nat), j < p →
      (writeAt buf p xs).getD j 0 = buf.getD j 0
  | buf, [], _, _, _ => by rw [writeAt_nil_right]
  | [], _ :: _, _, _, _ => by simp [writeAt]
  | _ :: _, _ :: _, 0, j, h => absurd h (Nat.not_lt_zero j)
  | b :: bs, x :: xs, p + 1, 0, _ => by simp [writeAt]
  | b :: bs, x :: xs, p + 1, j + 1, h => by
    simp only [writeAt, List.getD_cons_succ]
    exact getD_writeAt_lt bs (x :: xs) p j (by omega)

theorem writeAt3_getD2 (a b c : Nat) :
    ∀ (buf : List Nat), 3 ≤ buf.length →
      (writeAt buf 0 [a, b, c]).getD 2 0 = c
  | [], h => by simp at h
  | [_], h => by simp at h
  | [_, _], h => by simp at h
  | _ :: _ :: _ :: _, _ => by simp [writeAt, List.getD]

theorem getD_orByteAt_ne (buf : List Nat) (p v j : Nat) (h : p ≠ j) :
    (orByteAt buf p v).getD j 0 = buf.getD j 0 := by
  simp only [orByteAt, List.getD_eq_getElem?_getD]
  rw [List.getElem?_set_ne h]

theorem getD_take_lt (l : List Nat) (n j : Nat) (h : j < n) :
    (l.take n).getD j 0 = l.getD j 0 := by
  simp only [List.getD_eq_getElem?_getD]
  rw [List.getElem?_take, if_pos h]

theorem gip_encode_varint_ret_pos (v : Nat) : 1 ≤ gip_encode_varint_ret v := by
  simp only [gip_encode_varint_ret, gip_encode_varint_ret_go]
  split_ifs <;> omega

theorem gip_get_header_length_ge4 (hdr : GipHeader) :
    4 ≤ gip_get_header_length hdr := by
  have h1 : 1 ≤ gip_varint_digits hdr.packet_length := gip_varint_digits_pos _
  simp only [gip_get_header_length, gip_get_actual_header_length]
  omega

theorem gip_encode_header_getD2 (hdr : GipHeader) (buf : List Nat)
    (h : 3 ≤ buf.length) :
    (gip_encode_header hdr buf).getD 2 0 = hdr.sequence := by
  have hret : 1 ≤ gip_encode_varint_ret hdr.packet_length :=
    gip_encode_varint_ret_pos _
  have hb2 : (writeAt (writeAt buf 0 [hdr.command, hdr.options, hdr.sequence]) 3
      (gip_encode_varint hdr.packet_length)).getD 2 0 = hdr.sequence := by
    rw [getD_writeAt_lt _ _ _ _ (by omega)]
    exact writeAt3_getD2 _ _ _ buf h
  simp only [gip_encode_header]
  split_ifs with hchunk hodd hodd
  · rw [getD_writeAt_lt _ _ _ _ (by omega), getD_orByteAt_ne _ _ _ _ (by omega)]
    exact hb2
  · exact hb2
  · rw [getD_writeAt_lt _ _ _ _ (by omega), getD_writeAt_lt _ _ _ _ (by omega),
      getD_orByteAt_ne _ _ _ _ (by omega)]
    exact hb2
  · rw [getD_writeAt_lt _ _ _ _ (by omega)]
    exact hb2

theorem gip_draw_data_sequence_fst_ne_zero (seq ctr : Nat) :
    (gip_draw_data_sequence seq ctr).1 ≠ 0 := by
  simp only [gip_draw_data_sequence]
  split_ifs <;> simp_all

theorem gip_draw_audio_sequence_fst_ne_zero (ctr : Nat) :
    (gip_draw_audio_sequence ctr).1 ≠ 0 := by
  simp only [gip_draw_audio_sequence]
  split_ifs <;> simp_all

theorem gip_send_pkt_simple_seq_nonzero (adap : GipAdapter) (hdr : GipHeader)
    (payload : List Nat) (bufLen : Nat) :
    ∀ w ∈ (gip_send_pkt_simple adap hdr payload bufLen).2.2, w.getD 2 0 ≠ 0 := by
  intro w hw
  simp only [gip_send_pkt_simple] at hw
  split_ifs at hw with hfit
  · simp at hw
  · simp only [List.mem_singleton] at hw
    subst hw
    have hhl : 4 ≤ gip_get_header_length hdr := gip_get_header_length_ge4 hdr
    rw [getD_take_lt _ _ _ (by omega), getD_writeAt_lt _ _ _ _ (by omega),
      gip_encode_header_getD2 _ _ (by simp; omega)]
    exact gip_draw_data_sequence_fst_ne_zero _ _

theorem gip_copy_audio_samples_go_seq_nonzero (cfg : GipAudioConfig)
    (hdr : GipHeader) (hl : Nat) (hhl : 3 ≤ hl) (hbuf : 3 ≤ cfg.packet_size) :
    ∀ (n : Nat) (adap : GipAdapter) (samples : List Nat),
      ∀ w ∈ (gip_copy_audio_samples_go cfg hdr hl adap samples n).2,
        w.getD 2 0 ≠ 0 := by
  intro n
  induction n with
  | zero => intro adap samples w hw; simp [gip_copy_audio_samples_go] at hw
  | succ n ih =>
    intro adap samples w hw
    simp only [gip_copy_audio_samples_go, List.mem_cons] at hw
    rcases hw with hw | hw
    · subst hw
      rw [getD_writeAt_lt _ _ _ _ (by omega),
        gip_encode_header_getD2 _ _ (by simp [hbuf])]
      exact gip_draw_audio_sequence_fst_ne_zero _
    · exact ih _ _ w hw

theorem gip_copy_audio_samples_seq_nonzero (adap : GipAdapter) (clientId : Nat)
    (cfg : GipAudioConfig) (count : Nat) (samples : List Nat)
    (h : 3 ≤ cfg.packet_size) :
    ∀ w ∈ (gip_copy_audio_samples adap clientId cfg count samples).2,
      w.getD 2 0 ≠ 0 := by
  intro w hw
  have hhl : 4 ≤ gip_get_header_length
      (⟨GIP_CMD_AUDIO_SAMPLES, clientId ||| GIP_OPT_INTERNAL, 0,
        cfg.fragment_size, 0⟩ : GipHeader) :=
    gip_get_header_length_ge4 _
  exact gip_copy_audio_samples_go_seq_nonzero cfg _ _ (by omega) h
    count adap samples w hw

theorem gip_draw_data_sequence_succ_spec :
    ∀ c : Fin 256,
      (gip_draw_data_sequence 0 c.val).1 ≠ 0
      ∧ (gip_draw_data_sequence 0 c.val).2 < 256
      ∧ (gip_draw_data_sequence 0 (gip_draw_data_sequence 0 c.val).2).1
        = (if (gip_draw_data_sequence 0 c.val).1 = 255 then 1
           else (gip_draw_data_sequence 0 c.val).1 + 1) := by decide

theorem gip_draw_audio_sequence_succ_spec :
    ∀ c : Fin 256,
      (gip_draw_audio_sequence c.val).1 ≠ 0
      ∧ (gip_draw_audio_sequence c.val).2 < 256
      ∧ (gip_draw_audio_sequence (gip_draw_audio_sequence c.val).2).1
        = (if (gip_draw_audio_sequence c.val).1 = 255 then 1
           else (gip_draw_audio_sequence c.val).1 + 1) := by decide

/-- C5 — Sequence-number invariant: every wire packet submitted by
`gip_send_pkt_simple` and every audio packet stamped by
`gip_copy_audio_samples` carries a non-zero sequence byte (byte 2 of the
encoded header), and each of the two per-stream counters draws
successively `s, s+1, s+2, … (mod 256)`, skipping zero: from any counter
value the drawn sequence is non-zero and the next draw yields `s + 1`
(or `1` after `255`, zero being skipped). -/
theorem C5_sequence_invariant :
    (∀ (adap : GipAdapter) (hdr : GipHeader) (payload : List Nat) (bufLen : Nat),
      ∀ w ∈ (gip_send_pkt_simple adap hdr payload bufLen).2.2, w.getD 2 0 ≠ 0)
    ∧ (∀ (adap : GipAdapter) (clientId count : Nat) (cfg : GipAudioConfig)
        (samples : List Nat), 3 ≤ cfg.packet_size →
        ∀ w ∈ (gip_copy_audio_samples adap clientId cfg count samples).2,
          w.getD 2 0 ≠ 0)
    ∧ (∀ c : Nat, c < 256 →
        (gip_draw_data_sequence 0 c).1 ≠ 0
        ∧ (gip_draw_data_sequence 0 c).2 < 256
        ∧ (gip_draw_data_sequence 0 (gip_draw_data_sequence 0 c).2).1
          = (if (gip_draw_data_sequence 0 c).1 = 255 then 1
             else (gip_draw_data_sequence 0 c).1 + 1))
    ∧ (∀ c : Nat, c < 256 →
        (gip_draw_audio_sequence c).1 ≠ 0
        ∧ (gip_draw_audio_sequence c).2 < 256
        ∧ (gip_draw_audio_sequence (gip_draw_audio_sequence c).2).1
          = (if (gip_draw_audio_sequence c).1 = 255 then 1
             else (gip_draw_audio_sequence c).1 + 1)) := by
  refine ⟨gip_send_pkt_simple_seq_nonzero, ?_, ?_, ?_⟩
  · intro adap clientId count cfg samples h
    exact gip_copy_audio_samples_seq_nonzero adap clientId cfg count samples h
  · intro c hc
    exact gip_draw_data_sequence_succ_spec ⟨c, hc⟩
  · intro c hc
    exact gip_draw_audio_sequence_succ_spec ⟨c, hc⟩

/-- C5 witness: concrete submitted data and audio packets with non-zero
byte 2, and the counter succession at 255 (wrapping to 1, skipping 0). -/
theorem C5_sequence_invariant_witness :
    (([5, 32, 1, 1, 9] : List Nat).getD 2 0 ≠ 0)
    ∧ (([96, 33, 255, 2, 1, 2, 0, 0] : List Nat).getD 2 0 ≠ 0)
    ∧ ((gip_draw_data_sequence 0 255).1 ≠ 0
       ∧ (gip_draw_data_sequence 0 255).2 < 256
       ∧ (gip_draw_data_sequence 0 (gip_draw_data_sequence 0 255).2).1
         = (if (gip_draw_data_sequence 0 255).1 = 255 then 1
            else (gip_draw_data_sequence 0 255).1 + 1))
    ∧ ((gip_draw_audio_sequence 255).1 ≠ 0
       ∧ (gip_draw_audio_sequence 255).2 < 256
       ∧ (gip_draw_audio_sequence (gip_draw_audio_sequence 255).2).1
         = (if (gip_draw_audio_sequence 255).1 = 255 then 1
            else (gip_draw_audio_sequence 255).1 + 1)) :=
  ⟨C5_sequence_invariant.1 ⟨0, 0⟩ ⟨5, 32, 0, 1, 0⟩ [9] 16
     [5, 32, 1, 1, 9] (by decide),
   C5_sequence_invariant.2.1 ⟨0, 255⟩ 1 1 ⟨2, 8⟩ [1, 2] (by decide)
     [96, 33, 255, 2, 1, 2, 0, 0] (by decide),
   C5_sequence_invariant.2.2.1 255 (by decide),
   C5_sequence_invariant.2.2.2 255 (by decide)⟩

/-! ### Session-key derivation (`gip_auth_complete_handshake`) -/

theorem gip_auth_compute_prf_go_zero (hmac : List Nat → List Nat → List Nat)
    (key label seed hash : List Nat) (fuel : Nat) :
    gip_auth_compute_prf_go hmac key label seed fuel hash 0 = [] := by
  cases fuel <;> simp [gip_auth_compute_prf_go]

theorem gip_auth_compute_prf_go_small (hmac : List Nat → List Nat → List Nat)
    (key label seed hash : List Nat) (fuel rem : Nat) (h0 : 0 < fuel)
    (h1 : 0 < rem) (h2 : rem ≤ 32) :
    gip_auth_compute_prf_go hmac key label seed fuel hash rem
      = (hmac key (hash ++ label ++ seed)).take rem := by
  match fuel, h0 with
  | f + 1, _ =>
    have hz : rem - 32 = 0 := by omega
    have hm : min rem 32 = rem := by omega
    rw [gip_auth_compute_prf_go, if_neg (by omega), hz, hm,
      gip_auth_compute_prf_go_zero, List.append_nil]

theorem gip_auth_prf_sixteen_is_take (hmac : List Nat → List Nat → List Nat)
    (label key seed : List Nat) :
    gip_auth_compute_prf hmac label key seed 16
      = (gip_auth_compute_prf hmac label key seed 32).take 16 := by
  simp only [gip_auth_compute_prf]
  rw [gip_auth_compute_prf_go_small _ _ _ _ _ 16 16 (by omega) (by omega) (by omega),
    gip_auth_compute_prf_go_small _ _ _ _ _ 32 32 (by omega) (by omega) (by omega),
    List.take_take]
  norm_num

/-- C7 — Session-key derivation and installation: with a transport that
provides `set_encryption_key` and a full-size ClientFinish packet, a
Finished value matching the recomputed `PRF("Device Finished",
master_secret, transcript)` makes the flow succeed, send the
control-context Complete packet `[0x01, 0x00]` and install exactly
`PRF("EXPORTER DAWN data channel session key for controller",
master_secret, host_random ++ client_random)` at 16 output bytes — which
equals the first 16 bytes of the full 32-byte PRF block; a mismatch fails
with `-EPROTO` and installs nothing. -/
theorem C7_session_key_install (hmac : List Nat → List Nat → List Nat)
    (auth : GipAuth) (ops : GipAdapterOps) (f : List Nat → Int)
    (data : List Nat) (len : Nat)
    (hops : ops.set_encryption_key = some f) (hlen : 64 ≤ len) :
    (data.take 32 = gip_auth_compute_prf hmac (strBytes "Device Finished")
        auth.master_secret auth.transcript 32 →
      gip_auth_finish_flow hmac auth ops data len
        = (0, [GipAuthEvent.sendAuth [GIP_AUTH_CTX_CONTROL, GIP_AUTH_CTRL_COMPLETE]
                 false,
               GipAuthEvent.setKey (gip_auth_compute_prf hmac
                 (strBytes "EXPORTER DAWN data channel session key for controller")
                 auth.master_secret (auth.random_host ++ auth.random_client) 16)])
      ∧ gip_auth_compute_prf hmac
            (strBytes "EXPORTER DAWN data channel session key for controller")
            auth.master_secret (auth.random_host ++ auth.random_client) 16
          = (gip_auth_compute_prf hmac
              (strBytes "EXPORTER DAWN data channel session key for controller")
              auth.master_secret
              (auth.random_host ++ auth.random_client) 32).take 16)
    ∧ (data.take 32 ≠ gip_auth_compute_prf hmac (strBytes "Device Finished")
        auth.master_secret auth.transcript 32 →
      gip_auth_finish_flow hmac auth ops data len = (-EPROTO, [])) := by
  have hnlt : ¬ len < 64 := by omega
  constructor
  · intro hmatch
    refine ⟨?_, gip_auth_prf_sixteen_is_take hmac _ _ _⟩
    have hr : gip_auth_handle_pkt_finish hmac auth data len = (0, true) := by
      simp only [gip_auth_handle_pkt_finish, GIP_AUTH_TRANSCRIPT_LEN]
      rw [if_neg hnlt, if_pos hmatch]
    simp only [gip_auth_finish_flow, hr, gip_auth_complete_handshake,
      gip_set_encryption_key, hops, GIP_AUTH_SESSION_KEY_LEN]
    simp
  · intro hmismatch
    have hr : gip_auth_handle_pkt_finish hmac auth data len = (-EPROTO, false) := by
      simp only [gip_auth_handle_pkt_finish, GIP_AUTH_TRANSCRIPT_LEN]
      rw [if_neg hnlt, if_neg hmismatch]
    simp [gip_auth_finish_flow, hr]

/-- C7 witness: with the constant HMAC returning 32 zero bytes and empty
auth state, the expected Finished value is 32 zero bytes, so a 64-byte
all-zero ClientFinish matches and installs the 16-zero-byte session
key. -/
theorem C7_session_key_install_witness :
    gip_auth_finish_flow (fun _ _ => List.replicate 32 0) ⟨[], [], [], []⟩
        ⟨some fun _ => 0⟩ (List.replicate 64 0) 64
      = (0, [GipAuthEvent.sendAuth [GIP_AUTH_CTX_CONTROL, GIP_AUTH_CTRL_COMPLETE]
               false,
             GipAuthEvent.setKey (gip_auth_compute_prf (fun _ _ => List.replicate 32 0)
               (strBytes "EXPORTER DAWN data channel session key for controller")
               [] ([] ++ []) 16)]) :=
  ((C7_session_key_install (fun _ _ => List.replicate 32 0) ⟨[], [], [], []⟩
      ⟨some fun _ => 0⟩ (fun _ => 0) (List.replicate 64 0) 64 rfl (by omega)).1
    (by decide)).1

/-! ### Dongle WCID allocation -/

theorem getD_set_eq {α : Type} (a d : α) :
    ∀ (l : List α) (j : Nat), j < l.length → (l.set j a).getD j d = a
  | [], _, h => by simp at h
  | _ :: _, 0, _ => by simp [List.getD]
  | x :: xs, j + 1, h => by
    simp only [List.set_cons_succ, List.getD_cons_succ]
    exact getD_set_eq a d xs j (by simpa using h)

theorem getD_set_ne {α : Type} (a d : α) :
    ∀ (l : List α) (i j : Nat), i ≠ j → (l.set j a).getD i d = l.getD i d
  | [], _, _, _ => by simp
  | x :: xs, i, 0, h => by
    match i, h with
    | i + 1, _ => simp [List.getD_cons_succ]
  | x :: xs, 0, j + 1, _ => by simp [List.set_cons_succ, List.getD_cons_zero]
  | x :: xs, i + 1, j + 1, h => by
    simp only [List.set_cons_succ, List.getD_cons_succ]
    exact getD_set_ne a d xs i j (by omega)

theorem getD_eq_none_of_le {α : Type} (d : α) :
    ∀ (l : List α) (i : Nat), l.length ≤ i → l.getD i d = d
  | [], _, _ => by simp
  | _ :: _, 0, h => by simp at h
  | x :: xs, i + 1, h => by
    simp only [List.getD_cons_succ]
    exact getD_eq_none_of_le d xs i (by simpa using h)

theorem xone_dongle_find_free_le :
    ∀ l : List (Option XoneDongleClient), xone_dongle_find_free l ≤ l.length
  | [] => by simp [xone_dongle_find_free]
  | none :: rest => by simp [xone_dongle_find_free]
  | some c :: rest => by
    simp only [xone_dongle_find_free, List.length_cons]
    have := xone_dongle_find_free_le rest
    omega

theorem xone_dongle_find_free_lt_occupied :
    ∀ (l : List (Option XoneDongleClient)) (j : Nat),
      j < xone_dongle_find_free l → l.getD j none ≠ none
  | [], j, h => by simp [xone_dongle_find_free] at h
  | none :: rest, j, h => by simp [xone_dongle_find_free] at h
  | some c :: rest, 0, _ => by simp [List.getD_cons_zero]
  | some c :: rest, j + 1, h => by
    simp only [List.getD_cons_succ]
    refine xone_dongle_find_free_lt_occupied rest j ?_
    simp only [xone_dongle_find_free] at h
    omega

theorem xone_dongle_find_free_empty :
    ∀ l : List (Option XoneDongleClient),
      xone_dongle_find_free l < l.length →
      l.getD (xone_dongle_find_free l) none = none
  | [], h => by simp at h
  | none :: rest, _ => by simp [xone_dongle_find_free, List.getD_cons_zero]
  | some c :: rest, h => by
    simp only [xone_dongle_find_free, List.length_cons] at h ⊢
    rw [Nat.add_comm 1 (xone_dongle_find_free rest), List.getD_cons_succ]
    exact xone_dongle_find_free_empty rest (by omega)

theorem xone_wcid_inv_init : xone_wcid_inv xone_dongle_init := by
  refine ⟨by simp [xone_dongle_init], ?_⟩
  intro i c h
  simp only [xone_dongle_init] at h
  rw [List.getD_eq_getElem?_getD, List.getElem?_replicate] at h
  split at h <;> simp at h

theorem xone_wcid_inv_add (st : XoneDongleState) (addr : List Nat)
    (h : xone_wcid_inv st) : xone_wcid_inv (xone_dongle_add_client st addr).2 := by
  obtain ⟨hlen, hinv⟩ := h
  simp only [xone_dongle_add_client, xone_dongle_create_client]
  by_cases hfull : xone_dongle_find_free st.clients = 16
  · simp only [hfull, if_pos rfl]
    exact ⟨hlen, hinv⟩
  · rw [if_neg hfull]
    refine ⟨by simp [hlen], ?_⟩
    intro i c hc
    simp only at hc
    by_cases hi : i = xone_dongle_find_free st.clients
    · subst hi
      have hlt : xone_dongle_find_free st.clients < st.clients.length := by
        have := xone_dongle_find_free_le st.clients
        omega
      rw [show xone_dongle_find_free st.clients + 1 - 1
            = xone_dongle_find_free st.clients from by omega,
        getD_set_eq _ _ _ _ hlt] at hc
      cases hc
      rfl
    · rw [show xone_dongle_find_free st.clients + 1 - 1
            = xone_dongle_find_free st.clients from by omega,
        getD_set_ne _ _ _ _ _ hi] at hc
      exact hinv i c hc

theorem xone_wcid_inv_remove (st : XoneDongleState) (wcid : Nat)
    (h : xone_wcid_inv st) : xone_wcid_inv (xone_dongle_remove_client st wcid) := by
  obtain ⟨hlen, hinv⟩ := h
  simp only [xone_dongle_remove_client]
  split
  · exact ⟨hlen, hinv⟩
  · next x hx =>
    refine ⟨by simp [hlen], ?_⟩
    intro i c hc
    simp only at hc
    by_cases hi : i = wcid - 1
    · subst hi
      have hlt : wcid - 1 < st.clients.length := by
        by_contra hge
        rw [getD_eq_none_of_le _ _ _ (by omega)] at hx
        exact Option.noConfusion hx
      rw [getD_set_eq _ _ _ _ hlt] at hc
      exact Option.noConfusion hc
    · rw [getD_set_ne _ _ _ _ _ hi] at hc
      exact hinv i c hc

theorem xone_wcid_inv_reachable (st : XoneDongleState)
    (h : XoneDongleReachable st) : xone_wcid_inv st := by
  induction h with
  | init => exact xone_wcid_inv_init
  | add st addr _ ih => exact xone_wcid_inv_add st addr ih
  | remove st wcid _ ih => exact xone_wcid_inv_remove st wcid ih

/-- C8 (amended) — WCID allocation and WCID uniqueness: a successful
association assigns WCID = (lowest empty slot index) + 1 — every slot
below it is occupied and the slot itself is empty; with all sixteen slots
occupied, association fails with `-ENOSPC`; and in every reachable dongle
state the clients table holds at most one record per WCID.  (MAC-address
uniqueness, the other half of the original claim, is refuted by
`C8_counterexample`.) -/
theorem C8_wcid_allocation :
    (∀ (st : XoneDongleState) (addr : List Nat) (c : XoneDongleClient),
      st.clients.length = 16 → xone_dongle_create_client st addr = .ok c →
        c.wcid = xone_dongle_find_free st.clients + 1
        ∧ st.clients.getD (c.wcid - 1) none = none
        ∧ ∀ j, j < c.wcid - 1 → st.clients.getD j none ≠ none)
    ∧ (∀ (st : XoneDongleState) (addr : List Nat),
        st.clients.length = 16 →
        (∀ j, j < 16 → st.clients.getD j none ≠ none) →
        xone_dongle_create_client st addr = .error (-ENOSPC))
    ∧ (∀ st : XoneDongleState, XoneDongleReachable st →
        ∀ (i j : Nat) (ci cj : XoneDongleClient),
          st.clients.getD i none = some ci → st.clients.getD j none = some cj →
          ci.wcid = cj.wcid → i = j) := by
  refine ⟨?_, ?_, ?_⟩
  · intro st addr c hlen hok
    simp only [xone_dongle_create_client] at hok
    by_cases hfull : xone_dongle_find_free st.clients = 16
    · rw [if_pos hfull] at hok
      exact Except.noConfusion hok
    · rw [if_neg hfull] at hok
      injection hok with h
      subst h
      have hle := xone_dongle_find_free_le st.clients
      have hlt : xone_dongle_find_free st.clients < st.clients.length := by omega
      refine ⟨rfl, ?_, ?_⟩
      · simpa using xone_dongle_find_free_empty st.clients hlt
      · intro j hj
        exact xone_dongle_find_free_lt_occupied st.clients j (by simpa using hj)
  · intro st addr hlen hocc
    have hle := xone_dongle_find_free_le st.clients
    have h16 : xone_dongle_find_free st.clients = 16 := by
      by_contra hne
      have hlt : xone_dongle_find_free st.clients < st.clients.length := by omega
      exact hocc _ (by omega) (xone_dongle_find_free_empty st.clients hlt)
    simp [xone_dongle_create_client, h16]
  · intro st hreach i j ci cj hi hj hw
    obtain ⟨-, hinv⟩ := xone_wcid_inv_reachable st hreach
    have h1 := hinv i ci hi
    have h2 := hinv j cj hj
    omega

/-- C8 counterexample — MAC-address uniqueness fails:
`xone_dongle_add_client` performs no duplicate-MAC check, so two
association events from the same radio address yield a reachable state
whose slots 0 and 1 both hold records with that MAC. -/
theorem C8_counterexample :
    XoneDongleReachable xone_cex_state
    ∧ xone_cex_state.clients.getD 0 none = some ⟨1, xone_cex_addr⟩
    ∧ xone_cex_state.clients.getD 1 none = some ⟨2, xone_cex_addr⟩
    ∧ (⟨1, xone_cex_addr⟩ : XoneDongleClient).address
      = (⟨2, xone_cex_addr⟩ : XoneDongleClient).address :=
  ⟨XoneDongleReachable.add _ _ (XoneDongleReachable.add _ _ XoneDongleReachable.init),
   by decide, by decide, by decide⟩

/-- C8 witness: on a fresh dongle the first association receives WCID 1
(slot 0 being the lowest empty slot), a fully occupied table yields
`-ENOSPC`, and the WCID-uniqueness conclusion is exercised on the
reachable two-client state. -/
theorem C8_wcid_allocation_witness :
    ((⟨1, xone_cex_addr⟩ : XoneDongleClient).wcid
        = xone_dongle_find_free xone_dongle_init.clients + 1
      ∧ xone_dongle_init.clients.getD
          ((⟨1, xone_cex_addr⟩ : XoneDongleClient).wcid - 1) none = none)
    ∧ xone_dongle_create_client xone_full_state xone_cex_addr
        = .error (-ENOSPC)
    ∧ (0 : Nat) = 0 :=
  ⟨⟨(C8_wcid_allocation.1 xone_dongle_init xone_cex_addr ⟨1, xone_cex_addr⟩
       (by decide) rfl).1,
    (C8_wcid_allocation.1 xone_dongle_init xone_cex_addr ⟨1, xone_cex_addr⟩
       (by decide) rfl).2.1⟩,
   C8_wcid_allocation.2.1 xone_full_state xone_cex_addr (by decide) (by decide),
   C8_wcid_allocation.2.2 xone_cex_state
     (XoneDongleReachable.add _ _ (XoneDongleReachable.add _ _
       XoneDongleReachable.init))
     0 0 ⟨1, xone_cex_addr⟩ ⟨1, xone_cex_addr⟩ (by decide) (by decide) rfl⟩

/-! ### Chunk reassembly round-trip -/

theorem byte_chunk_flags :
    ∀ b : Fin 256, b.val &&& 208 = 0 →
      ((b.val ||| 208) &&& 64 ≠ 0)
      ∧ ((b.val ||| 208) &&& 128 ≠ 0)
      ∧ ((b.val ||| 128) &&& 64 = 0)
      ∧ ((b.val ||| 128) &&& 128 ≠ 0)
      ∧ ((b.val ||| 144) &&& 64 = 0)
      ∧ ((b.val ||| 144) &&& 128 ≠ 0)
      ∧ ((b.val ||| 208) &&& 175 = b.val ||| 128)
      ∧ ((b.val ||| 128) &&& 175 = b.val ||| 128)
      ∧ ((b.val ||| 144) &&& 175 = b.val ||| 128)
      ∧ (((b.val ||| 128) ||| 16) &&& 175 = b.val ||| 128)
      ∧ (b.val ||| 128 < 256) := by decide

theorem dispatchedPayloads_append (a b : List GipEvent) :
    dispatchedPayloads (a ++ b) = dispatchedPayloads a ++ dispatchedPayloads b := by
  simp [dispatchedPayloads]

theorem dispatchedPayloads_ack_ite (st : GipClientRx) (hdr : GipHeader)
    (P : Prop) [Decidable P] :
    dispatchedPayloads (if P then [gip_acknowledge_pkt st hdr] else []) = [] := by
  split <;> simp [dispatchedPayloads, gip_acknowledge_pkt]

theorem gip_process_pkt_write (st : GipClientRx) (hdr : GipHeader)
    (data : List Nat) (buf : GipChunkBuffer)
    (hst : st.chunkBuf = some buf)
    (hcs : hdr.options &&& GIP_OPT_CHUNK_START = 0)
    (hck : hdr.options &&& GIP_OPT_CHUNK ≠ 0)
    (hfit : hdr.chunk_offset + hdr.packet_length ≤ buf.length)
    (hpl : hdr.packet_length ≠ 0) :
    gip_process_pkt st hdr data
      = (0, ⟨some ⟨buf.length,
            writeAt buf.data hdr.chunk_offset (data.take hdr.packet_length)⟩⟩,
         if hdr.options &&& GIP_OPT_ACKNOWLEDGE ≠ 0
         then [gip_acknowledge_pkt st hdr] else []) := by
  have hov : ¬ buf.length < hdr.chunk_offset + hdr.packet_length := by omega
  simp [gip_process_pkt, gip_process_pkt_rest, gip_process_pkt_chunked,
    hst, hcs, hck, hov, hpl]

theorem gip_process_pkt_complete (st : GipClientRx) (hdr : GipHeader)
    (data : List Nat) (buf : GipChunkBuffer)
    (hst : st.chunkBuf = some buf)
    (hcs : hdr.options &&& GIP_OPT_CHUNK_START = 0)
    (hck : hdr.options &&& GIP_OPT_CHUNK ≠ 0)
    (hfit : hdr.chunk_offset ≤ buf.length)
    (hpl : hdr.packet_length = 0) :
    gip_process_pkt st hdr data
      = (0, ⟨none⟩,
         (if hdr.options &&& GIP_OPT_ACKNOWLEDGE ≠ 0
          then [gip_acknowledge_pkt st hdr] else [])
         ++ [.dispatch hdr.command hdr.options buf.data]) := by
  have hov : ¬ buf.length < hdr.chunk_offset := by omega
  have hov' : ¬ buf.length < hdr.chunk_offset + hdr.packet_length := by omega
  simp [gip_process_pkt, gip_process_pkt_rest, gip_process_pkt_chunked,
    hst, hcs, hck, hov, hov', hpl]

theorem gip_process_pkt_start (st : GipClientRx) (hdr : GipHeader)
    (data : List Nat)
    (hcs : hdr.options &&& GIP_OPT_CHUNK_START ≠ 0)
    (hck : hdr.options &&& GIP_OPT_CHUNK ≠ 0)
    (hmax : hdr.chunk_offset ≤ GIP_CHUNK_BUF_MAX_LENGTH)
    (hfit : hdr.packet_length ≤ hdr.chunk_offset)
    (hpl : hdr.packet_length ≠ 0) :
    gip_process_pkt st hdr data
      = (0, ⟨some ⟨hdr.chunk_offset,
            writeAt (List.replicate hdr.chunk_offset 0) 0
              (data.take hdr.packet_length)⟩⟩,
         if hdr.options &&& GIP_OPT_ACKNOWLEDGE ≠ 0
         then [gip_acknowledge_pkt
                 ⟨some ⟨hdr.chunk_offset, List.replicate hdr.chunk_offset 0⟩⟩
                 { hdr with chunk_offset := 0 }] else []) := by
  have hmax' : ¬ hdr.chunk_offset > GIP_CHUNK_BUF_MAX_LENGTH := by omega
  have hov : ¬ hdr.chunk_offset < 0 + hdr.packet_length := by omega
  have hov' : ¬ hdr.chunk_offset < hdr.packet_length := by omega
  simp [gip_process_pkt, gip_process_pkt_rest, gip_process_pkt_chunked,
    gip_init_chunk_buffer, hcs, hck, hmax', hov, hov', hpl]

theorem writeAt_take_prefix (payload : List Nat) (off : Nat) (B xs : List Nat)
    (h : off ≤ payload.length) :
    writeAt (payload.take off ++ B) off xs = payload.take off ++ writeAt B 0 xs := by
  have hl : (payload.take off).length = off := by
    simp [List.length_take]
    omega
  calc writeAt (payload.take off ++ B) off xs
      = writeAt (payload.take off ++ B) (payload.take off).length xs := by rw [hl]
    _ = payload.take off ++ writeAt B 0 xs := writeAt_prefix_eq _ _ _

theorem gip_process_packets_cons_ok (st st' : GipClientRx) (hdr : GipHeader)
    (data : List Nat) (rest : List (GipHeader × List Nat)) (evts1 : List GipEvent)
    (h : gip_process_pkt st hdr data = (0, st', evts1)) :
    gip_process_packets st ((hdr, data) :: rest)
      = ((gip_process_packets st' rest).1, (gip_process_packets st' rest).2.1,
         evts1 ++ (gip_process_packets st' rest).2.2) := by
  simp [gip_process_packets, h]

theorem gip_process_chunks_middle (base : GipHeader) (total : Nat)
    (payload : List Nat) (hb : base.options < 256) (hbs : base.options &&& 208 = 0)
    (hfull : payload.length = total) :
    ∀ (chunks : List (List Nat)) (off : Nat),
      chunks.flatten = payload.drop off → off ≤ total →
      (∀ c ∈ chunks, c ≠ []) →
      ∃ evts,
        gip_process_packets
            ⟨some ⟨total, payload.take off ++ List.replicate (total - off) 0⟩⟩
            (gip_mk_chunks_go base off chunks ++
              [({ base with
                  options := base.options ||| GIP_OPT_CHUNK,
                  packet_length := 0, chunk_offset := total }, [])])
          = (0, ⟨none⟩, evts)
        ∧ dispatchedPayloads evts = [payload] := by
  have hB := byte_chunk_flags ⟨base.options, hb⟩ hbs
  intro chunks
  induction chunks with
  | nil =>
    intro off hfl hoff _
    have hoffe : off = total := by
      have := congrArg List.length hfl
      simp [List.length_drop] at this
      omega
    subst hoffe
    have hbufd : payload.take off ++ List.replicate (off - off) 0 = payload := by
      simp [List.take_of_length_le (by omega : payload.length ≤ off)]
    simp only [gip_mk_chunks_go, List.nil_append, hbufd]
    have hpkt := gip_process_pkt_complete
      ⟨some ⟨off, payload⟩⟩
      { base with
        options := base.options ||| GIP_OPT_CHUNK,
        packet_length := 0, chunk_offset := off } [] ⟨off, payload⟩
      rfl hB.2.2.1 hB.2.2.2.1 (by simp) rfl
    refine ⟨(if (base.options ||| GIP_OPT_CHUNK) &&& GIP_OPT_ACKNOWLEDGE ≠ 0
        then [gip_acknowledge_pkt ⟨some ⟨off, payload⟩⟩
          { base with
            options := base.options ||| GIP_OPT_CHUNK,
            packet_length := 0, chunk_offset := off }] else [])
        ++ [.dispatch base.command (base.options ||| GIP_OPT_CHUNK) payload], ?_, ?_⟩
    · rw [gip_process_packets_cons_ok _ _ _ _ _ _ hpkt]
      simp [gip_process_packets]
    · rw [dispatchedPayloads_append, dispatchedPayloads_ack_ite]
      simp [dispatchedPayloads]
  | cons c rest ih =>
    intro off hfl hoff hne
    have hcne : c ≠ [] := hne c (by simp)
    have hclen : c.length ≠ 0 := by simpa using hcne
    have hlenfl := congrArg List.length hfl
    simp [List.length_drop] at hlenfl
    have hofffit : off + c.length ≤ total := by omega
    have htake : (payload.drop off).take c.length = c := by
      rw [← hfl]
      simp [List.flatten_cons, List.take_left]
    have hdropc : payload.drop (off + c.length) = (rest.flatten : List Nat) := by
      have h1 : payload.drop (off + c.length) = (payload.drop off).drop c.length := by
        rw [List.drop_drop, Nat.add_comm]
      rw [h1, ← hfl]
      simp [List.flatten_cons, List.drop_left]
    have hbufstep :
        writeAt (payload.take off ++ List.replicate (total - off) 0) off
            (c.take c.length)
          = payload.take (off + c.length)
            ++ List.replicate (total - (off + c.length)) 0 := by
      rw [List.take_length, writeAt_take_prefix payload off _ c (by omega),
        writeAt_replicate_zero c (total - off) 0 (by omega)]
      have htk : payload.take (off + c.length)
          = payload.take off ++ c := by
        rw [List.take_add, htake]
      rw [htk, List.append_assoc]
      have hcnt : total - off - c.length = total - (off + c.length) := by omega
      rw [hcnt]
    cases rest with
    | nil =>
      simp only [gip_mk_chunks_go, List.cons_append, List.nil_append]
      have hpkt := gip_process_pkt_write
        ⟨some ⟨total, payload.take off ++ List.replicate (total - off) 0⟩⟩
        { base with
          options := base.options ||| (GIP_OPT_CHUNK ||| GIP_OPT_ACKNOWLEDGE),
          packet_length := c.length, chunk_offset := off } c
        ⟨total, payload.take off ++ List.replicate (total - off) 0⟩
        rfl hB.2.2.2.2.1 hB.2.2.2.2.2.1 (by simpa using hofffit) hclen
      have hpkt' : gip_process_pkt
          ⟨some ⟨total, payload.take off ++ List.replicate (total - off) 0⟩⟩
          { base with
            options := base.options ||| (GIP_OPT_CHUNK ||| GIP_OPT_ACKNOWLEDGE),
            packet_length := c.length, chunk_offset := off } c
          = (0, ⟨some ⟨total, payload.take (off + c.length)
                ++ List.replicate (total - (off + c.length)) 0⟩⟩,
             if (base.options ||| (GIP_OPT_CHUNK ||| GIP_OPT_ACKNOWLEDGE))
                 &&& GIP_OPT_ACKNOWLEDGE ≠ 0
             then [gip_acknowledge_pkt
               ⟨some ⟨total, payload.take off ++ List.replicate (total - off) 0⟩⟩
               { base with
                 options := base.options ||| (GIP_OPT_CHUNK ||| GIP_OPT_ACKNOWLEDGE),
                 packet_length := c.length, chunk_offset := off }] else []) := by
        rw [hpkt]
        dsimp only
        rw [hbufstep]
      obtain ⟨evts2, heq2, hdp2⟩ := ih (off + c.length)
        (by simpa using hdropc.symm) hofffit (by simp)
      simp only [gip_mk_chunks_go, List.nil_append] at heq2
      refine ⟨(if (base.options ||| (GIP_OPT_CHUNK ||| GIP_OPT_ACKNOWLEDGE))
            &&& GIP_OPT_ACKNOWLEDGE ≠ 0
          then [gip_acknowledge_pkt
            ⟨some ⟨total, payload.take off ++ List.replicate (total - off) 0⟩⟩
            { base with
              options := base.options ||| (GIP_OPT_CHUNK ||| GIP_OPT_ACKNOWLEDGE),
              packet_length := c.length, chunk_offset := off }] else []) ++ evts2,
        ?_, ?_⟩
      · rw [gip_process_packets_cons_ok _ _ _ _ _ _ hpkt', heq2]
      · rw [dispatchedPayloads_append, dispatchedPayloads_ack_ite, hdp2]
        simp
    | cons c2 rest2 =>
      simp only [gip_mk_chunks_go, List.cons_append]
      have hpkt := gip_process_pkt_write
        ⟨some ⟨total, payload.take off ++ List.replicate (total - off) 0⟩⟩
        { base with
          options := base.options ||| GIP_OPT_CHUNK,
          packet_length := c.length, chunk_offset := off } c
        ⟨total, payload.take off ++ List.replicate (total - off) 0⟩
        rfl hB.2.2.1 hB.2.2.2.1 (by simpa using hofffit) hclen
      have hpkt' : gip_process_pkt
          ⟨some ⟨total, payload.take off ++ List.replicate (total - off) 0⟩⟩
          { base with
            options := base.options ||| GIP_OPT_CHUNK,
            packet_length := c.length, chunk_offset := off } c
          = (0, ⟨some ⟨total, payload.take (off + c.length)
                ++ List.replicate (total - (off + c.length)) 0⟩⟩,
             if (base.options ||| GIP_OPT_CHUNK) &&& GIP_OPT_ACKNOWLEDGE ≠ 0
             then [gip_acknowledge_pkt
               ⟨some ⟨total, payload.take off ++ List.replicate (total - off) 0⟩⟩
               { base with
                 options := base.options ||| GIP_OPT_CHUNK,
                 packet_length := c.length, chunk_offset := off }] else []) := by
        rw [hpkt]
        dsimp only
        rw [hbufstep]
      obtain ⟨evts2, heq2, hdp2⟩ := ih (off + c.length)
        (by simpa using hdropc.symm) hofffit
        (fun d hd => hne d (by simp [hd]))
      refine ⟨(if (base.options ||| GIP_OPT_CHUNK) &&& GIP_OPT_ACKNOWLEDGE ≠ 0
          then [gip_acknowledge_pkt
            ⟨some ⟨total, payload.take off ++ List.replicate (total - off) 0⟩⟩
            { base with
              options := base.options ||| GIP_OPT_CHUNK,
              packet_length := c.length, chunk_offset := off }] else []) ++ evts2,
        ?_, ?_⟩
      · rw [gip_process_packets_cons_ok _ _ _ _ _ _ hpkt', heq2]
      · rw [dispatchedPayloads_append, dispatchedPayloads_ack_ite, hdp2]
        simp

theorem gip_conforming_reassembly (base : GipHeader) (chunks : List (List Nat))
    (hb : base.options < 256) (hbs : base.options &&& 208 = 0)
    (htot : chunks.flatten.length ≤ GIP_CHUNK_BUF_MAX_LENGTH)
    (hne : chunks ≠ []) (hc : ∀ c ∈ chunks, c ≠ []) :
    ∃ evts,
      gip_process_packets ⟨none⟩ (gip_mk_conforming_packets base chunks)
        = (0, ⟨none⟩, evts)
      ∧ dispatchedPayloads evts = [chunks.flatten] := by
  have hB := byte_chunk_flags ⟨base.options, hb⟩ hbs
  match chunks, hne with
  | c0 :: rest, _ =>
    have hc0 : c0 ≠ [] := hc c0 (by simp)
    have hc0len : c0.length ≠ 0 := by simpa using hc0
    have hc0le : c0.length ≤ (c0 :: rest).flatten.length := by
      simp [List.flatten_cons]
    have hpkt := gip_process_pkt_start (⟨none⟩ : GipClientRx)
      { base with
        options := base.options
          ||| (GIP_OPT_ACKNOWLEDGE ||| GIP_OPT_CHUNK_START ||| GIP_OPT_CHUNK),
        packet_length := c0.length, chunk_offset := (c0 :: rest).flatten.length } c0
      hB.1 hB.2.1 htot (by simpa using hc0le) hc0len
    have hbufstep :
        writeAt (List.replicate (c0 :: rest).flatten.length 0) 0 (c0.take c0.length)
          = (c0 :: rest).flatten.take c0.length
            ++ List.replicate ((c0 :: rest).flatten.length - c0.length) 0 := by
      rw [List.take_length,
        writeAt_replicate_zero c0 ((c0 :: rest).flatten.length) 0 hc0le]
      have htk : (c0 :: rest).flatten.take c0.length = c0 := by
        simp [List.flatten_cons, List.take_left]
      rw [htk]
    have hpkt' : gip_process_pkt (⟨none⟩ : GipClientRx)
        { base with
          options := base.options
            ||| (GIP_OPT_ACKNOWLEDGE ||| GIP_OPT_CHUNK_START ||| GIP_OPT_CHUNK),
          packet_length := c0.length,
          chunk_offset := (c0 :: rest).flatten.length } c0
        = (0, ⟨some ⟨(c0 :: rest).flatten.length,
              (c0 :: rest).flatten.take c0.length
                ++ List.replicate ((c0 :: rest).flatten.length - c0.length) 0⟩⟩,
           if (base.options
               ||| (GIP_OPT_ACKNOWLEDGE ||| GIP_OPT_CHUNK_START ||| GIP_OPT_CHUNK))
               &&& GIP_OPT_ACKNOWLEDGE ≠ 0
           then [gip_acknowledge_pkt
             ⟨some ⟨(c0 :: rest).flatten.length,
               List.replicate (c0 :: rest).flatten.length 0⟩⟩
             { base with
               options := base.options
                 ||| (GIP_OPT_ACKNOWLEDGE ||| GIP_OPT_CHUNK_START ||| GIP_OPT_CHUNK),
               packet_length := c0.length, chunk_offset := 0 }] else []) := by
      rw [hpkt]
      dsimp only
      rw [hbufstep]
    obtain ⟨evts2, heq2, hdp2⟩ := gip_process_chunks_middle base
      (c0 :: rest).flatten.length (c0 :: rest).flatten hb hbs rfl rest c0.length
      (by simp [List.flatten_cons, List.drop_left]) hc0le
      (fun d hd => hc d (by simp [hd]))
    refine ⟨(if (base.options
          ||| (GIP_OPT_ACKNOWLEDGE ||| GIP_OPT_CHUNK_START ||| GIP_OPT_CHUNK))
          &&& GIP_OPT_ACKNOWLEDGE ≠ 0
        then [gip_acknowledge_pkt
          ⟨some ⟨(c0 :: rest).flatten.length,
            List.replicate (c0 :: rest).flatten.length 0⟩⟩
          { base with
            options := base.options
              ||| (GIP_OPT_ACKNOWLEDGE ||| GIP_OPT_CHUNK_START ||| GIP_OPT_CHUNK),
            packet_length := c0.length, chunk_offset := 0 }] else []) ++ evts2,
      ?_, ?_⟩
    · simp only [gip_mk_conforming_packets, List.cons_append]
      rw [gip_process_packets_cons_ok _ _ _ _ _ _ hpkt', heq2]
    · rw [dispatchedPayloads_append, dispatchedPayloads_ack_ite, hdp2]
      simp

theorem gip_chunks_of_cons (l : List Nat) (h : l ≠ []) :
    gip_chunks_of l
      = l.take GIP_PKT_MAX_LENGTH :: gip_chunks_of (l.drop GIP_PKT_MAX_LENGTH) := by
  match l, h with
  | x :: xs, _ => rw [gip_chunks_of]

theorem gip_chunks_of_flatten : ∀ l : List Nat, (gip_chunks_of l).flatten = l
  | [] => by simp [gip_chunks_of]
  | x :: xs => by
    rw [gip_chunks_of]
    simp only [List.flatten_cons]
    rw [gip_chunks_of_flatten ((x :: xs).drop GIP_PKT_MAX_LENGTH)]
    exact List.take_append_drop _ _
termination_by l => l.length
decreasing_by simp [GIP_PKT_MAX_LENGTH]; omega

theorem gip_chunks_of_mem : ∀ l : List Nat, ∀ c ∈ gip_chunks_of l,
    c ≠ [] ∧ c.length ≤ GIP_PKT_MAX_LENGTH
  | [] => by simp [gip_chunks_of]
  | x :: xs => by
    intro c hc
    rw [gip_chunks_of] at hc
    rcases List.mem_cons.mp hc with rfl | hc2
    · refine ⟨?_, ?_⟩
      · simp [GIP_PKT_MAX_LENGTH]
      · simp only [List.length_take, GIP_PKT_MAX_LENGTH]
        omega
    · exact gip_chunks_of_mem ((x :: xs).drop GIP_PKT_MAX_LENGTH) c hc2
termination_by l => l.length
decreasing_by simp [GIP_PKT_MAX_LENGTH]; omega

theorem gip_chunks_of_ne_nil (l : List Nat) (h : l ≠ []) :
    gip_chunks_of l ≠ [] := by
  rw [gip_chunks_of_cons l h]
  simp

theorem gip_chunks_of_small (l : List Nat) (h1 : l ≠ [])
    (h2 : l.length ≤ GIP_PKT_MAX_LENGTH) : gip_chunks_of l = [l] := by
  rw [gip_chunks_of_cons l h1, List.take_of_length_le h2,
    List.drop_eq_nil_of_le h2]
  simp [gip_chunks_of]

theorem gip_send_pkt_chunks_go_zero (h' : GipHeader) (total : Nat)
    (d' : List Nat) : gip_send_pkt_chunks_go h' total d' 0 = ([], h') := by
  rw [gip_send_pkt_chunks_go]
  simp

theorem gip_send_pkt_chunks_go_align (hdr : GipHeader) (total : Nat)
    (hb : hdr.options < 256) (hbs : hdr.options &&& 208 = 0) :
    ∀ (remaining : Nat) (data : List Nat) (h : GipHeader),
      h.command = hdr.command → h.sequence = hdr.sequence →
      h.options = hdr.options ||| 128 → h.chunk_offset = total - remaining →
      data.length = remaining → remaining ≠ 0 → remaining ≤ total →
      (gip_send_pkt_chunks_go h total data remaining).1
          = gip_mk_chunks_go hdr (total - remaining) (gip_chunks_of data)
      ∧ (gip_send_pkt_chunks_go h total data remaining).2.command = hdr.command
      ∧ (gip_send_pkt_chunks_go h total data remaining).2.sequence = hdr.sequence
      ∧ (gip_send_pkt_chunks_go h total data remaining).2.options
          = hdr.options ||| 128
      ∧ (gip_send_pkt_chunks_go h total data remaining).2.chunk_offset = total := by
  have hB10' : ((hdr.options ||| 128) ||| 16) &&& 175 = hdr.options ||| 128 :=
    (byte_chunk_flags ⟨hdr.options, hb⟩ hbs).2.2.2.2.2.2.2.2.2.1
  have hB8' : (hdr.options ||| 128) &&& 175 = hdr.options ||| 128 :=
    (byte_chunk_flags ⟨hdr.options, hb⟩ hbs).2.2.2.2.2.2.2.1
  intro remaining
  induction remaining using Nat.strong_induction_on with
  | _ remaining ih =>
    intro data h hc hs ho hco hlen hr0 hle
    obtain ⟨c1, o1, s1, p1, co1⟩ := h
    simp only at hc hs ho hco
    subst hc hs ho hco
    have hdne : data ≠ [] := by
      intro hd
      rw [hd] at hlen
      simp at hlen
      omega
    rw [gip_send_pkt_chunks_go, dif_neg hr0]
    by_cases hsmall : remaining ≤ GIP_PKT_MAX_LENGTH
    · have hpl : min remaining GIP_PKT_MAX_LENGTH = remaining := by omega
      have hchs : gip_chunks_of data = [data] :=
        gip_chunks_of_small data hdne (by omega)
      have htakeall : data.take remaining = data := by
        rw [← hlen, List.take_length]
      simp only [if_pos hsmall, hpl, Nat.sub_self, Nat.sub_zero,
        gip_send_pkt_chunks_go_zero, hchs, gip_mk_chunks_go, htakeall,
        List.cons.injEq, Prod.mk.injEq, GipHeader.mk.injEq, true_and, and_true]
      and_intros <;>
        first
          | rfl
          | exact Nat.lor_assoc hdr.options 128 16
          | exact hB10'
          | omega
    · have hpl : min remaining GIP_PKT_MAX_LENGTH = GIP_PKT_MAX_LENGTH := by
        omega
      have hdrop : (data.drop GIP_PKT_MAX_LENGTH).length
          = remaining - GIP_PKT_MAX_LENGTH := by
        simp [hlen]
      have h58 : (0 : Nat) < GIP_PKT_MAX_LENGTH := by simp [GIP_PKT_MAX_LENGTH]
      have hdropne : data.drop GIP_PKT_MAX_LENGTH ≠ [] := by
        intro hd
        rw [hd] at hdrop
        simp at hdrop
        omega
      obtain ⟨ih1, ih2, ih3, ih4, ih5⟩ := ih (remaining - GIP_PKT_MAX_LENGTH)
        (by omega) (data.drop GIP_PKT_MAX_LENGTH)
        ⟨hdr.command, (hdr.options ||| 128) &&& 175, hdr.sequence,
          GIP_PKT_MAX_LENGTH, total - (remaining - GIP_PKT_MAX_LENGTH)⟩
        rfl rfl hB8' rfl hdrop (by omega) (by omega)
      have hchs := gip_chunks_of_cons data hdne
      have hchs2 := gip_chunks_of_cons (data.drop GIP_PKT_MAX_LENGTH) hdropne
      have hofftake : total - remaining + (data.take GIP_PKT_MAX_LENGTH).length
          = total - (remaining - GIP_PKT_MAX_LENGTH) := by
        simp only [List.length_take]
        omega
      simp only [if_neg hsmall, hpl]
      rw [hchs, hchs2]
      simp only [gip_mk_chunks_go]
      rw [← hchs2]
      simp only [List.cons.injEq, Prod.mk.injEq, GipHeader.mk.injEq, true_and,
        and_true]
      and_intros <;>
        first
          | rfl
          | exact ih2
          | exact ih3
          | exact ih4
          | exact ih5
          | (simp only [List.length_take]; omega)
          | (rw [ih1, hofftake])

theorem gip_send_pkt_packets_conforming (hdr : GipHeader) (data : List Nat)
    (hb : hdr.options < 256) (hbs : hdr.options &&& 208 = 0)
    (hlen : hdr.packet_length = data.length)
    (hgt : GIP_PKT_MAX_LENGTH < data.length) :
    gip_send_pkt_packets hdr data
      = gip_mk_conforming_packets hdr (gip_chunks_of data) := by
  have hB7' : (hdr.options ||| 208) &&& 175 = hdr.options ||| 128 :=
    (byte_chunk_flags ⟨hdr.options, hb⟩ hbs).2.2.2.2.2.2.1
  have h58 : (0 : Nat) < GIP_PKT_MAX_LENGTH := by simp [GIP_PKT_MAX_LENGTH]
  have hdne : data ≠ [] := by
    intro hd
    rw [hd] at hgt
    simp at hgt
  have hsmall : ¬ hdr.packet_length ≤ GIP_PKT_MAX_LENGTH := by omega
  have hr0 : hdr.packet_length ≠ 0 := by omega
  have hpl : min hdr.packet_length GIP_PKT_MAX_LENGTH = GIP_PKT_MAX_LENGTH := by
    omega
  have hdrop : (data.drop GIP_PKT_MAX_LENGTH).length
      = hdr.packet_length - GIP_PKT_MAX_LENGTH := by
    simp [hlen]
  have hdropne : data.drop GIP_PKT_MAX_LENGTH ≠ [] := by
    intro hd
    rw [hd] at hdrop
    simp at hdrop
    omega
  obtain ⟨ih1, ih2, ih3, ih4, ih5⟩ :=
    gip_send_pkt_chunks_go_align hdr hdr.packet_length hb hbs
      (hdr.packet_length - GIP_PKT_MAX_LENGTH) (data.drop GIP_PKT_MAX_LENGTH)
      ⟨hdr.command,
        (hdr.options ||| (GIP_OPT_ACKNOWLEDGE ||| GIP_OPT_CHUNK_START |||
          GIP_OPT_CHUNK)) &&& 175,
        hdr.sequence, GIP_PKT_MAX_LENGTH,
        hdr.packet_length - (hdr.packet_length - GIP_PKT_MAX_LENGTH)⟩
      rfl rfl hB7' rfl hdrop (by omega) (by omega)
  have hchs := gip_chunks_of_cons data hdne
  have hflat : (data.take GIP_PKT_MAX_LENGTH
        :: gip_chunks_of (data.drop GIP_PKT_MAX_LENGTH)).flatten = data := by
    rw [← gip_chunks_of_cons data hdne, gip_chunks_of_flatten]
  have hofftake : (data.take GIP_PKT_MAX_LENGTH).length
      = hdr.packet_length - (hdr.packet_length - GIP_PKT_MAX_LENGTH) := by
    simp only [List.length_take]
    omega
  simp only [gip_send_pkt_packets, if_neg hsmall]
  rw [gip_send_pkt_chunks_go, dif_neg hr0]
  simp only [if_neg hsmall, hpl]
  rw [hchs]
  simp only [gip_mk_conforming_packets, hflat, List.cons_append,
    List.cons.injEq, Prod.mk.injEq, GipHeader.mk.injEq, true_and, and_true]
  and_intros <;>
    first
      | rfl
      | exact hlen
      | (simp only [List.length_take]; omega)
      | (rw [ih1, hofftake]
         congr 1
         simp only [List.cons.injEq, Prod.mk.injEq, GipHeader.mk.injEq,
           true_and, and_true]
         and_intros <;>
           first
             | rfl
             | exact ih2
             | exact ih3
             | exact ih4
             | exact hlen)


/-- C3 — Chunk reassembly round-trip: every §4.2-conforming split of a
payload of at most `GIP_CHUNK_BUF_MAX_LENGTH` (65535) bytes into
non-empty chunks (a CHUNK_START packet declaring the total in
chunk-offset, data chunks at their offsets, a terminal zero-length
chunk), fed in order to `gip_process_pkt` for one client starting with no
chunk buffer, succeeds, leaves the buffer freed and dispatches exactly
one message equal to the original payload; in particular the packets
`gip_send_pkt` emits for a payload longer than `GIP_PKT_MAX_LENGTH` (58)
bytes reassemble to exactly that payload. -/
theorem C3_chunk_reassembly :
    (∀ (base : GipHeader) (chunks : List (List Nat)),
      base.options < 256 →
      base.options &&& (GIP_OPT_ACKNOWLEDGE ||| GIP_OPT_CHUNK_START |||
        GIP_OPT_CHUNK) = 0 →
      chunks.flatten.length ≤ GIP_CHUNK_BUF_MAX_LENGTH →
      chunks ≠ [] →
      (∀ c ∈ chunks, c ≠ [] ∧ c.length ≤ GIP_PKT_MAX_LENGTH) →
      ∃ evts,
        gip_process_packets ⟨none⟩ (gip_mk_conforming_packets base chunks)
          = (0, ⟨none⟩, evts)
        ∧ dispatchedPayloads evts = [chunks.flatten])
    ∧ (∀ (hdr : GipHeader) (data : List Nat),
        hdr.options < 256 →
        hdr.options &&& (GIP_OPT_ACKNOWLEDGE ||| GIP_OPT_CHUNK_START |||
          GIP_OPT_CHUNK) = 0 →
        hdr.packet_length = data.length →
        GIP_PKT_MAX_LENGTH < data.length →
        data.length ≤ GIP_CHUNK_BUF_MAX_LENGTH →
        ∃ evts,
          gip_process_packets ⟨none⟩ (gip_send_pkt_packets hdr data)
            = (0, ⟨none⟩, evts)
          ∧ dispatchedPayloads evts = [data]) := by
  constructor
  · intro base chunks hb hbs htot hne hc
    exact gip_conforming_reassembly base chunks hb hbs htot hne
      (fun c hc' => (hc c hc').1)
  · intro hdr data hb hbs hlen hgt htot
    rw [gip_send_pkt_packets_conforming hdr data hb hbs hlen hgt]
    have hdne : data ≠ [] := by
      intro hd
      rw [hd] at hgt
      simp at hgt
    obtain ⟨evts, heq, hdp⟩ := gip_conforming_reassembly hdr
      (gip_chunks_of data) hb hbs
      (by rw [gip_chunks_of_flatten]; exact htot)
      (gip_chunks_of_ne_nil data hdne)
      (fun c hc' => (gip_chunks_of_mem data c hc').1)
    refine ⟨evts, heq, ?_⟩
    rw [hdp, gip_chunks_of_flatten]

/-- C3 witness: a two-chunk conforming split of `[1, 2, 3]` dispatches
exactly `[1, 2, 3]`, and the sender's own chunking of a 60-byte payload
reassembles to that payload. -/
theorem C3_chunk_reassembly_witness :
    (gip_process_packets ⟨none⟩
        (gip_mk_conforming_packets ⟨77, 0, 3, 9, 9⟩ [[1, 2], [3]])).1 = 0
    ∧ dispatchedPayloads (gip_process_packets ⟨none⟩
        (gip_mk_conforming_packets ⟨77, 0, 3, 9, 9⟩ [[1, 2], [3]])).2.2
      = [[1, 2, 3]]
    ∧ (gip_process_packets ⟨none⟩
        (gip_send_pkt_packets ⟨77, 0, 3, 60, 0⟩ (List.range 60))).1 = 0
    ∧ dispatchedPayloads (gip_process_packets ⟨none⟩
        (gip_send_pkt_packets ⟨77, 0, 3, 60, 0⟩ (List.range 60))).2.2
      = [List.range 60] := by
  obtain ⟨e1, he1, hd1⟩ := C3_chunk_reassembly.1 ⟨77, 0, 3, 9, 9⟩ [[1, 2], [3]]
    (by decide) (by decide) (by decide) (by decide) (by decide)
  obtain ⟨e2, he2, hd2⟩ := C3_chunk_reassembly.2 ⟨77, 0, 3, 60, 0⟩ (List.range 60)
    (by decide) (by decide) (by decide) (by decide) (by decide)
  rw [he1, he2]
  exact ⟨rfl, hd1, rfl, hd2⟩

end Xone
